import Mathlib

/-!
# Verification of the image metadata embedding engine

Shallow embedding of the binary metadata embedding subsystem of
`vscode-nanobanana` (`src/services/imageFileService.ts`): CRC32 engine,
TIFF/EXIF builder, PNG chunk codec, JPEG APP1 segment injector, prompt
normalization and the dispatching orchestrator `attachPromptMetadata`.

Byte buffers (`Buffer`/`Uint8Array`) are modelled as `List Nat`, each element
a byte value `< 256`; 32-bit unsigned arithmetic is modelled on `Nat` with
explicit `% 2^32`-style bounds where the JavaScript source relies on
`>>> 0` coercions.  JavaScript strings are modelled as Lean `String`
(sequences of Unicode scalar values).  All embedded functions are total;
the JavaScript `try/catch` in `attachPromptMetadata` has no reachable throw
sites in this model, so the never-throwing contract is totality here.
-/

abbrev Bytes := List Nat

/-- `bytes.subarray(a, b)` (also `Buffer.prototype.toString` ranges). -/
def sliceBytes (bytes : Bytes) (a b : Nat) : Bytes :=
  (bytes.drop a).take (b - a)

/-- `Buffer.prototype.readUInt32BE(off)`: big-endian 32-bit read. -/
def readUInt32BE (bytes : Bytes) (off : Nat) : Nat :=
  bytes.getD off 0 * 16777216 + bytes.getD (off + 1) 0 * 65536 +
    bytes.getD (off + 2) 0 * 256 + bytes.getD (off + 3) 0

/-- Big-endian 16-bit read (used by the TIFF decoder model). -/
def readUInt16BE (bytes : Bytes) (off : Nat) : Nat :=
  bytes.getD off 0 * 256 + bytes.getD (off + 1) 0

/-- `Buffer.prototype.writeUInt32BE`: the four big-endian bytes of `n`. -/
def u32be (n : Nat) : Bytes :=
  [n / 16777216 % 256, n / 65536 % 256, n / 256 % 256, n % 256]

/-- `Buffer.prototype.writeUInt16BE`: the two big-endian bytes of `n`. -/
def u16be (n : Nat) : Bytes :=
  [n / 256 % 256, n % 256]

/-- Node's legacy `'ascii'` decoding masks every byte to 7 bits. -/
def asciiMask (bytes : Bytes) : Bytes :=
  bytes.map (· % 128)

/-! ## CRC32 engine (`buildCrc32Table`, `calculateCrc32`) -/

/-- One bit-step of the table construction:
`c = (c & 1) === 0 ? c >>> 1 : 0xedb88320 ^ (c >>> 1)`. -/
def crcStep (c : Nat) : Nat :=
  if c % 2 = 0 then c / 2 else 0xedb88320 ^^^ (c / 2)

/-- Entry `i` of `buildCrc32Table()`: eight `crcStep` iterations on `i`. -/
def crc32TableEntry (i : Nat) : Nat :=
  crcStep^[8] i

/-- `calculateCrc32(data)`: table-driven CRC32, initial register
`0xffffffff`, final register XORed with `0xffffffff`. -/
def calculateCrc32 (data : Bytes) : Nat :=
  (data.foldl (fun crc b => crc32TableEntry ((crc ^^^ b) % 256) ^^^ crc / 256)
    0xffffffff) ^^^ 0xffffffff

/-! ## Prompt normalization (`normalizePrompt`) -/

/-- The whitespace class of JavaScript's `\s` / `String.prototype.trim`:
ASCII whitespace, NBSP, Ogham space, the Unicode space range
U+2000–U+200A, line/paragraph separators, narrow NBSP, medium
mathematical space, ideographic space and the BOM. -/
def isJsWhitespace (c : Char) : Bool :=
  c.toNat == 0x20 || (0x9 ≤ c.toNat && c.toNat ≤ 0xd) || c.toNat == 0xa0 ||
    c.toNat == 0x1680 || (0x2000 ≤ c.toNat && c.toNat ≤ 0x200a) ||
    c.toNat == 0x2028 || c.toNat == 0x2029 || c.toNat == 0x202f ||
    c.toNat == 0x205f || c.toNat == 0x3000 || c.toNat == 0xfeff

/-- `String.prototype.trim()` on the character list. -/
def trimChars (cs : List Char) : List Char :=
  ((cs.dropWhile isJsWhitespace).reverse.dropWhile isJsWhitespace).reverse

/-- `String.prototype.trim()` on a string; strips the same whitespace class
as `\s` on both ends (wider than Lean's `String.trim`, which would keep
VT, FF, NBSP and the Unicode spaces that JavaScript strips). -/
def jsTrim (s : String) : String :=
  ⟨trimChars s.data⟩

/-- `String.prototype.toLowerCase()`: per-character lowercasing, written
over the character list (the same function as `String.toLower`, in a form
the kernel can evaluate). -/
def jsToLower (s : String) : String :=
  ⟨s.data.map Char.toLower⟩

/-- `.replace(/\s+/g, ' ')`: collapse every whitespace run to a single
space; the flag records whether the previous character was whitespace. -/
def collapseWsAux : Bool → List Char → List Char
  | _, [] => []
  | prevWs, c :: rest =>
    if isJsWhitespace c then
      if prevWs then collapseWsAux true rest
      else ' ' :: collapseWsAux true rest
    else c :: collapseWsAux false rest

/-- `normalizePrompt(prompt)`: trim, collapse whitespace runs to single
spaces, return `''` when empty, else `slice(0, 2000)`. -/
def normalizePrompt (prompt : String) : String :=
  let compact := collapseWsAux false (trimChars prompt.data)
  if compact = [] then "" else ⟨compact.take 2000⟩

/-! ## TIFF/EXIF builder (`buildExifTiff`) -/

/-- UTF-8 encoding of one Unicode scalar value
(`Buffer.from(string, 'utf8')`, per character). -/
def utf8EncodeChar (c : Char) : Bytes :=
  let n := c.toNat
  if n < 0x80 then [n]
  else if n < 0x800 then [0xc0 + n / 64, 0x80 + n % 64]
  else if n < 0x10000 then
    [0xe0 + n / 4096, 0x80 + n / 64 % 64, 0x80 + n % 64]
  else
    [0xf0 + n / 262144, 0x80 + n / 4096 % 64, 0x80 + n / 64 % 64, 0x80 + n % 64]

/-- `Buffer.from(prompt, 'utf8')`. -/
def utf8Bytes (s : String) : Bytes :=
  s.data.flatMap utf8EncodeChar

/-- `buildExifTiff(prompt)`: big-endian TIFF with a single-entry IFD0
carrying one `ImageDescription` (tag 0x010E, type ASCII) whose value is
the NUL-terminated UTF-8 prompt, inline when it fits in 4 bytes, else
out-of-line at offset 26. -/
def buildExifTiff (prompt : String) : Bytes :=
  let description := utf8Bytes prompt
  let valueSize := description.length + 1
  let header :=
    [0x4d, 0x4d] ++ u16be 0x002a ++ u32be 8 ++ u16be 1 ++ u16be 0x010e ++
      u16be 2 ++ u32be valueSize
  if valueSize ≤ 4 then
    header ++ (description ++ [0] ++ List.replicate (4 - valueSize) 0) ++ u32be 0
  else
    header ++ u32be 26 ++ u32be 0 ++ description ++ [0]

/-! ## PNG chunk codec (`extractPngChunks`, `buildPngChunk`, `injectPngExif`) -/

def PNG_SIGNATURE : Bytes := [0x89, 0x50, 0x4e, 0x47, 0x0d, 0x0a, 0x1a, 0x0a]

structure PngChunk where
  type : Bytes
  data : Bytes
deriving DecidableEq

def eXIfType : Bytes := [0x65, 0x58, 0x49, 0x66]
def IDATType : Bytes := [0x49, 0x44, 0x41, 0x54]
def IENDType : Bytes := [0x49, 0x45, 0x4e, 0x44]

/-- The scanning loop of `extractPngChunks`, from `offset`.  `none` models
the `return []` that discards every chunk accumulated so far when a
declared chunk length would run past the end of the buffer; `some cl`
yields the accumulated chunks (stopping after `IEND`, or when fewer than
12 bytes remain). -/
def extractPngChunksAux (bytes : Bytes) (offset : Nat) : Option (List PngChunk) :=
  if offset + 12 ≤ bytes.length then
    let length := readUInt32BE bytes offset
    let chunkEnd := offset + 12 + length
    if chunkEnd > bytes.length then
      none
    else
      let ty := asciiMask (sliceBytes bytes (offset + 4) (offset + 8))
      let data := sliceBytes bytes (offset + 8) (offset + 8 + length)
      if ty = IENDType then
        some [⟨ty, data⟩]
      else
        (extractPngChunksAux bytes chunkEnd).map (⟨ty, data⟩ :: ·)
  else
    some []
termination_by bytes.length - offset
decreasing_by simp only [not_lt] at *; omega

/-- `extractPngChunks(bytes)`: scan from the end of the 8-byte signature. -/
def extractPngChunks (bytes : Bytes) : List PngChunk :=
  (extractPngChunksAux bytes 8).getD []

/-- `buildPngChunk(type, data)`:
`length(4) ++ type ++ data ++ crc32(type ++ data)(4)`. -/
def buildPngChunk (ty data : Bytes) : Bytes :=
  u32be data.length ++ ty ++ data ++ u32be (calculateCrc32 (ty ++ data))

/-- The insertion index for the new `eXIf` chunk:
`firstIdat === -1 ? withoutExif.length : Math.max(1, firstIdat)`. -/
def pngInsertIndex (withoutExif : List PngChunk) : Nat :=
  match withoutExif.findIdx? (fun c => c.type = IDATType) with
  | none => withoutExif.length
  | some i => max 1 i

/-- The chunk list serialized by `injectPngExif`: existing `eXIf` chunks
removed, the new one spliced in at `pngInsertIndex`. -/
def pngFinalChunks (chunks : List PngChunk) (prompt : String) : List PngChunk :=
  let withoutExif := chunks.filter (fun c => c.type ≠ eXIfType)
  withoutExif.insertIdx (pngInsertIndex withoutExif) ⟨eXIfType, buildExifTiff prompt⟩

/-- Serialization of a chunk list (the `rebuilt` accumulation). -/
def pngChunksSerialize (chunks : List PngChunk) : Bytes :=
  (chunks.map (fun c => buildPngChunk c.type c.data)).flatten

/-- `injectPngExif(bytes, prompt)`. -/
def injectPngExif (bytes : Bytes) (prompt : String) : Bytes :=
  if bytes.length < 8 ∨ ¬ sliceBytes bytes 0 8 = PNG_SIGNATURE then bytes
  else
    let chunks := extractPngChunks bytes
    if chunks = [] then bytes
    else PNG_SIGNATURE ++ pngChunksSerialize (pngFinalChunks chunks prompt)

/-! ## JPEG segment injector (`injectJpegExif`) -/

def JPEG_SOI : Bytes := [0xff, 0xd8]

/-- The 6-byte ASCII identifier `"Exif\0\0"`. -/
def exifIdBytes : Bytes := [0x45, 0x78, 0x69, 0x66, 0x00, 0x00]

/-- `injectJpegExif(bytes, prompt)`: splice
`APP1 marker ++ length ++ "Exif\0\0" ++ TIFF` right after the SOI. -/
def injectJpegExif (bytes : Bytes) (prompt : String) : Bytes :=
  if bytes.length < 4 ∨ ¬ sliceBytes bytes 0 2 = JPEG_SOI then bytes
  else
    let tiffData := buildExifTiff prompt
    let exifPayload := exifIdBytes ++ tiffData
    let exifSegmentLength := exifPayload.length + 2
    if exifSegmentLength > 0xffff then bytes
    else
      sliceBytes bytes 0 2 ++ u16be 0xffe1 ++ u16be exifSegmentLength ++
        exifPayload ++ bytes.drop 2

/-! ## Orchestrator (`attachPromptMetadata`) -/

/-- `attachPromptMetadata(bytes, mimeType, prompt)`.  The embedded injectors
are total, so the `catch` branch of the source has no reachable throw site
in this model; the dispatch and the fallbacks are modelled exactly. -/
def attachPromptMetadata (bytes : Bytes) (mimeType prompt : String) : Bytes :=
  let normalizedPrompt := normalizePrompt prompt
  if normalizedPrompt = "" then bytes
  else
    let normalizedMimeType := jsToLower (jsTrim mimeType)
    if normalizedMimeType = "image/png" then injectPngExif bytes normalizedPrompt
    else if normalizedMimeType = "image/jpeg" ∨ normalizedMimeType = "image/jpg" then
      injectJpegExif bytes normalizedPrompt
    else bytes

/-! ### Fallback helper lemmas -/

theorem injectPngExif_eq_self (bytes : Bytes) (p : String)
    (h : bytes.length < 8 ∨ sliceBytes bytes 0 8 ≠ PNG_SIGNATURE ∨
      extractPngChunks bytes = []) :
    injectPngExif bytes p = bytes := by
  unfold injectPngExif
  rcases h with h | h | h
  · rw [if_pos (Or.inl h)]
  · rw [if_pos (Or.inr h)]
  · split
    · rfl
    · simp [h]

theorem injectJpegExif_eq_self (bytes : Bytes) (p : String)
    (h : bytes.length < 4 ∨ sliceBytes bytes 0 2 ≠ JPEG_SOI ∨
      (exifIdBytes ++ buildExifTiff p).length + 2 > 0xffff) :
    injectJpegExif bytes p = bytes := by
  unfold injectJpegExif
  rcases h with h | h | h
  · rw [if_pos (Or.inl h)]
  · rw [if_pos (Or.inr h)]
  · split
    · rfl
    · simp only []
      rw [if_pos h]

/-- C1: `attachPromptMetadata` is total (never raises), and whenever embedding
is skipped (empty normalized prompt, unsupported MIME type) or any internal
parse/structural failure occurs (bad PNG signature, failed chunk scan, bad
JPEG SOI, oversize segment), the returned buffer is byte-for-byte the input. -/
theorem attachPromptMetadata_fallback (bytes : Bytes) (mimeType prompt : String)
    (h : normalizePrompt prompt = "" ∨
      (jsToLower (jsTrim mimeType) ≠ "image/png" ∧ jsToLower (jsTrim mimeType) ≠ "image/jpeg" ∧
        jsToLower (jsTrim mimeType) ≠ "image/jpg") ∨
      (jsToLower (jsTrim mimeType) = "image/png" ∧
        (bytes.length < 8 ∨ sliceBytes bytes 0 8 ≠ PNG_SIGNATURE ∨
          extractPngChunks bytes = [])) ∨
      ((jsToLower (jsTrim mimeType) = "image/jpeg" ∨ jsToLower (jsTrim mimeType) = "image/jpg") ∧
        (bytes.length < 4 ∨ sliceBytes bytes 0 2 ≠ JPEG_SOI ∨
          (exifIdBytes ++ buildExifTiff (normalizePrompt prompt)).length + 2 > 0xffff))) :
    attachPromptMetadata bytes mimeType prompt = bytes := by
  unfold attachPromptMetadata
  by_cases hnp : normalizePrompt prompt = ""
  · rw [if_pos hnp]
  · rw [if_neg hnp]
    rcases h with h | h | h | h
    · exact absurd h hnp
    · rw [if_neg h.1, if_neg (by push_neg; exact ⟨h.2.1, h.2.2⟩)]
    · rw [if_pos h.1]
      exact injectPngExif_eq_self _ _ h.2
    · have hpng : jsToLower (jsTrim mimeType) ≠ "image/png" := by
        rcases h.1 with h1 | h1 <;> simp [h1]
      rw [if_neg hpng, if_pos h.1]
      exact injectJpegExif_eq_self _ _ h.2

theorem attachPromptMetadata_fallback_witness :
    normalizePrompt "   " = "" ∧
    attachPromptMetadata [1, 2, 3] "image/png" "   " = [1, 2, 3] ∧
    jsToLower (jsTrim "\x0bIMAGE/PNG") = "image/png" ∧
    attachPromptMetadata [1, 2, 3] "\x0bIMAGE/PNG" "a" = [1, 2, 3] :=
  ⟨by decide,
    attachPromptMetadata_fallback [1, 2, 3] "image/png" "   " (Or.inl (by decide)),
    by decide,
    attachPromptMetadata_fallback [1, 2, 3] "\x0bIMAGE/PNG" "a"
      (Or.inr (Or.inr (Or.inl ⟨by decide, Or.inr (Or.inl (by decide))⟩)))⟩

/-- C6: if at any point of the chunk scan a declared 4-byte big-endian chunk
length would run the chunk past the end of the buffer (the scan aborts with
`none`), `injectPngExif` returns the input buffer unchanged byte-for-byte and
never emits a re-serialization of a partially-parsed chunk structure. -/
theorem injectPngExif_abort_unchanged (bytes : Bytes) (p : String)
    (_hsig : sliceBytes bytes 0 8 = PNG_SIGNATURE)
    (habort : extractPngChunksAux bytes 8 = none) :
    injectPngExif bytes p = bytes := by
  apply injectPngExif_eq_self
  right; right
  simp [extractPngChunks, habort]

theorem injectPngExif_abort_unchanged_witness :
    sliceBytes (PNG_SIGNATURE ++ [0, 0, 0, 5, 73, 72, 68, 82, 0, 0, 0, 0]) 0 8 =
      PNG_SIGNATURE ∧
    extractPngChunksAux (PNG_SIGNATURE ++ [0, 0, 0, 5, 73, 72, 68, 82, 0, 0, 0, 0]) 8 =
      none ∧
    injectPngExif (PNG_SIGNATURE ++ [0, 0, 0, 5, 73, 72, 68, 82, 0, 0, 0, 0]) "x" =
      PNG_SIGNATURE ++ [0, 0, 0, 5, 73, 72, 68, 82, 0, 0, 0, 0] := by
  have h1 : sliceBytes (PNG_SIGNATURE ++ [0, 0, 0, 5, 73, 72, 68, 82, 0, 0, 0, 0]) 0 8 =
      PNG_SIGNATURE := by decide
  have h2 : extractPngChunksAux (PNG_SIGNATURE ++ [0, 0, 0, 5, 73, 72, 68, 82, 0, 0, 0, 0])
      8 = none := by
    simp [extractPngChunksAux, readUInt32BE, PNG_SIGNATURE, List.getD]
  exact ⟨h1, h2, injectPngExif_abort_unchanged _ _ h1 h2⟩

/-- C7: the insertion index for the new `eXIf` chunk is the index of the first
`IDAT` chunk when one exists (clamped from `0` to `1`), else the length of the
list; hence the chunk originally at index 0 of a nonempty list always remains
first after the insertion. -/
theorem pngInsertIndex_spec (l : List PngChunk) (c : PngChunk) :
    (∀ (i : Nat) (h : i < l.length), (l[i]).type = IDATType →
      (∀ (j : Nat) (hj : j < l.length), j < i → (l[j]).type ≠ IDATType) →
      pngInsertIndex l = max 1 i) ∧
    ((∀ c' ∈ l, c'.type ≠ IDATType) → pngInsertIndex l = l.length) ∧
    (l ≠ [] → (l.insertIdx (pngInsertIndex l) c).head? = l.head?) := by
  refine ⟨?_, ?_, ?_⟩
  · intro i h hIdat hfirst
    have hf : l.findIdx? (fun c => c.type = IDATType) = some i := by
      rw [List.findIdx?_eq_some_iff_getElem]
      refine ⟨h, by simp [hIdat], ?_⟩
      intro j hji
      simp only [decide_eq_true_eq, Bool.not_eq_true, decide_eq_false_iff_not]
      exact hfirst j (by omega) hji
    simp [pngInsertIndex, hf]
  · intro hnone
    have hf : l.findIdx? (fun c => c.type = IDATType) = none := by
      rw [List.findIdx?_eq_none_iff]
      intro x hx
      simp [hnone x hx]
    simp [pngInsertIndex, hf]
  · intro hne
    have h1 : 1 ≤ pngInsertIndex l := by
      unfold pngInsertIndex
      cases hf : l.findIdx? (fun c => c.type = IDATType) with
      | none =>
        cases l with
        | nil => exact absurd rfl hne
        | cons x xs => simp
      | some i => simp
    obtain ⟨x, xs, rfl⟩ := List.exists_cons_of_ne_nil hne
    obtain ⟨k, hk⟩ : ∃ k, pngInsertIndex (x :: xs) = k + 1 :=
      ⟨pngInsertIndex (x :: xs) - 1, by omega⟩
    rw [hk, List.insertIdx_succ_cons]
    simp

theorem pngInsertIndex_spec_witness :
    ([⟨IENDType, []⟩] : List PngChunk) ≠ [] ∧
    (([⟨IENDType, []⟩] : List PngChunk).insertIdx
      (pngInsertIndex [⟨IENDType, []⟩]) ⟨eXIfType, []⟩).head? =
      ([⟨IENDType, []⟩] : List PngChunk).head? :=
  ⟨by decide, (pngInsertIndex_spec [⟨IENDType, []⟩] ⟨eXIfType, []⟩).2.2 (by decide)⟩

/-- C9 (amended): `normalizePrompt` returns at most 2000 characters; the
prompt `"  a   b\n\tc  "` normalizes to `"a b c"`; and every prompt whose
trimmed-and-collapsed form has at least 2000 characters is truncated to
exactly 2000 characters.  (The original claim — every prompt longer than 2000
characters yields exactly 2000 — fails, see the counterexample.) -/
theorem normalizePrompt_props :
    (∀ p : String, (normalizePrompt p).length ≤ 2000) ∧
    normalizePrompt "  a   b\n\tc  " = "a b c" ∧
    ∀ p : String, 2000 ≤ (collapseWsAux false (trimChars p.data)).length →
      (normalizePrompt p).length = 2000 := by
  refine ⟨?_, by decide, ?_⟩
  · intro p
    by_cases hc : collapseWsAux false (trimChars p.data) = []
    · simp [normalizePrompt, hc]
    · simp [normalizePrompt, hc, String.length, List.length_take]
  · intro p h
    by_cases hc : collapseWsAux false (trimChars p.data) = []
    · rw [hc] at h
      simp at h
    · simp [normalizePrompt, hc, String.length, List.length_take]
      omega

theorem dropWhile_replicate_space (m : Nat) (l : List Char) :
    List.dropWhile isJsWhitespace (List.replicate m ' ' ++ l) =
      List.dropWhile isJsWhitespace l := by
  induction m with
  | zero => rfl
  | succ k ih =>
    simp only [List.replicate_succ, List.cons_append, List.dropWhile_cons]
    rw [if_pos (show isJsWhitespace ' ' = true from rfl)]
    exact ih

theorem trimChars_a_spaces (n : Nat) :
    trimChars ('a' :: List.replicate n ' ') = ['a'] := by
  have ha : isJsWhitespace 'a' = false := rfl
  unfold trimChars
  rw [List.dropWhile_cons, ha]
  simp only [Bool.false_eq_true, if_false, List.reverse_cons, List.reverse_replicate]
  rw [dropWhile_replicate_space n ['a'], List.dropWhile_cons, ha]
  simp

theorem collapseWsAux_replicate_a (n : Nat) :
    collapseWsAux false (List.replicate n 'a') = List.replicate n 'a' := by
  induction n with
  | zero => rfl
  | succ k ih =>
    simp only [List.replicate_succ, collapseWsAux]
    rw [if_neg (by simp [isJsWhitespace])]
    rw [ih]

theorem trimChars_replicate_a (n : Nat) :
    trimChars (List.replicate n 'a') = List.replicate n 'a' := by
  have h1 : ∀ m, List.dropWhile isJsWhitespace (List.replicate m 'a') =
      List.replicate m 'a' := by
    intro m
    cases m with
    | zero => rfl
    | succ k =>
      simp only [List.replicate_succ, List.dropWhile_cons]
      rw [if_neg (by simp [isJsWhitespace])]
  unfold trimChars
  rw [h1, List.reverse_replicate, h1, List.reverse_replicate]

/-- C9 counterexample: a prompt of 2001 characters whose normalization has
length 1, not 2000. -/
theorem normalizePrompt_truncation_cex :
    2000 < (String.mk ('a' :: List.replicate 2000 ' ')).length ∧
    (normalizePrompt (String.mk ('a' :: List.replicate 2000 ' '))).length ≠ 2000 := by
  constructor
  · have hl : (String.mk ('a' :: List.replicate 2000 ' ')).length = 2001 := by
      show ('a' :: List.replicate 2000 ' ').length = 2001
      rw [List.length_cons, List.length_replicate]
    omega
  · have hn : normalizePrompt (String.mk ('a' :: List.replicate 2000 ' ')) = "a" := by
      unfold normalizePrompt
      rw [show (String.mk ('a' :: List.replicate 2000 ' ')).data =
        'a' :: List.replicate 2000 ' ' from rfl, trimChars_a_spaces]
      rfl
    rw [hn]
    decide

theorem normalizePrompt_props_witness :
    (normalizePrompt (String.mk (List.replicate 2001 'a'))).length = 2000 :=
  normalizePrompt_props.2.2 (String.mk (List.replicate 2001 'a')) (by
    rw [show (String.mk (List.replicate 2001 'a')).data = List.replicate 2001 'a' from rfl,
      trimChars_replicate_a, collapseWsAux_replicate_a, List.length_replicate]
    omega)

/-! ### CRC32: table-driven form equals the bitwise reference -/

/-- Modelled from the spec: the standard reflected IEEE 802.3 CRC32 —
XOR each byte into the register, then reduce bit by bit with the
polynomial `0xedb88320`; initial register `0xffffffff`, final register
XORed with `0xffffffff`. -/
def crc32Reference (data : Bytes) : Nat :=
  (data.foldl (fun crc b => crcStep^[8] (crc ^^^ b)) 0xffffffff) ^^^ 0xffffffff

theorem xor_div_two (a b : Nat) : (a ^^^ b) / 2 = a / 2 ^^^ b / 2 := by
  apply Nat.eq_of_testBit_eq
  intro i
  rw [← Nat.testBit_succ, Nat.testBit_xor, Nat.testBit_xor, ← Nat.testBit_succ,
    ← Nat.testBit_succ]

theorem xor_mod_two (a b : Nat) : (a ^^^ b) % 2 = (a % 2 + b % 2) % 2 := by
  have h := Nat.testBit_xor a b 0
  simp only [Nat.testBit_zero] at h
  rcases Nat.mod_two_eq_zero_or_one a with ha | ha <;>
    rcases Nat.mod_two_eq_zero_or_one b with hb | hb <;>
    rcases Nat.mod_two_eq_zero_or_one (a ^^^ b) with hx | hx <;>
    rw [ha, hb, hx] at h ⊢ <;> simp_all

theorem nat_xor_left_comm (a b c : Nat) : a ^^^ (b ^^^ c) = b ^^^ (a ^^^ c) := by
  rw [← Nat.xor_assoc, Nat.xor_comm a b, Nat.xor_assoc]

theorem xor_xor_cancel (p x y : Nat) : (p ^^^ x) ^^^ (p ^^^ y) = x ^^^ y := by
  apply Nat.eq_of_testBit_eq
  intro i
  simp only [Nat.testBit_xor]
  cases p.testBit i <;> cases x.testBit i <;> cases y.testBit i <;> rfl

theorem crcStep_xor (a b : Nat) : crcStep (a ^^^ b) = crcStep a ^^^ crcStep b := by
  unfold crcStep
  have hx := xor_mod_two a b
  have hd := xor_div_two a b
  rcases Nat.mod_two_eq_zero_or_one a with ha | ha <;>
    rcases Nat.mod_two_eq_zero_or_one b with hb | hb <;> rw [ha, hb] at hx
  · rw [if_pos ha, if_pos hb, if_pos (show (a ^^^ b) % 2 = 0 from by omega), hd]
  · rw [if_pos ha, if_neg (show ¬ b % 2 = 0 from by omega),
      if_neg (show ¬ (a ^^^ b) % 2 = 0 from by omega), hd,
      nat_xor_left_comm (a / 2) 0xedb88320 (b / 2)]
  · rw [if_neg (show ¬ a % 2 = 0 from by omega), if_pos hb,
      if_neg (show ¬ (a ^^^ b) % 2 = 0 from by omega), hd, Nat.xor_assoc]
  · rw [if_neg (show ¬ a % 2 = 0 from by omega),
      if_neg (show ¬ b % 2 = 0 from by omega),
      if_pos (show (a ^^^ b) % 2 = 0 from by omega), hd, xor_xor_cancel]

theorem crcStep_iterate_xor (n a b : Nat) :
    crcStep^[n] (a ^^^ b) = crcStep^[n] a ^^^ crcStep^[n] b := by
  induction n generalizing a b with
  | zero => rfl
  | succ k ih => rw [Function.iterate_succ_apply, Function.iterate_succ_apply,
      Function.iterate_succ_apply, crcStep_xor, ih]

theorem crcStep_two_mul (y : Nat) : crcStep (2 * y) = y := by
  unfold crcStep
  rw [if_pos (Nat.mul_mod_right 2 y), Nat.mul_div_cancel_left y (by norm_num)]

theorem crcStep_iterate_pow_mul (k y : Nat) : crcStep^[k] (2 ^ k * y) = y := by
  induction k generalizing y with
  | zero => simp
  | succ n ih =>
    rw [Function.iterate_succ_apply, show (2:Nat) ^ (n + 1) * y = 2 * (2 ^ n * y) by ring,
      crcStep_two_mul, ih]

theorem nat_decomp_256 (x : Nat) : x = x % 256 ^^^ 256 * (x / 256) := by
  apply Nat.eq_of_testBit_eq
  intro i
  rw [Nat.testBit_xor, show (256:Nat) * (x / 256) = (x / 256) <<< 8 by
    rw [Nat.shiftLeft_eq]; ring, Nat.testBit_shiftLeft,
    show x % 256 = x % 2 ^ 8 by norm_num, Nat.testBit_mod_two_pow,
    show x / 256 = x >>> 8 by rw [Nat.shiftRight_eq_div_pow],
    Nat.testBit_shiftRight]
  by_cases hi : i < 8
  · have : ¬ (i ≥ 8) := by omega
    simp [hi, this]
  · rw [show 8 + (i - 8) = i from by omega]
    simp [hi, show i ≥ 8 from by omega]

theorem crcStep_iterate_eight (x : Nat) :
    crcStep^[8] x = crcStep^[8] (x % 256) ^^^ x / 256 := by
  conv_lhs => rw [nat_decomp_256 x]
  rw [crcStep_iterate_xor, show (256:Nat) = 2 ^ 8 by norm_num, crcStep_iterate_pow_mul]

theorem xor_div_256 (a b : Nat) : (a ^^^ b) / 256 = a / 256 ^^^ b / 256 := by
  have h : ∀ y : Nat, y / 256 = y >>> 8 := fun y => by
    rw [Nat.shiftRight_eq_div_pow]
  apply Nat.eq_of_testBit_eq
  intro i
  rw [h, h, h, Nat.testBit_shiftRight, Nat.testBit_xor, Nat.testBit_xor,
    Nat.testBit_shiftRight, Nat.testBit_shiftRight]

theorem crc_byte_update (crc b : Nat) (hb : b < 256) :
    crc32TableEntry ((crc ^^^ b) % 256) ^^^ crc / 256 = crcStep^[8] (crc ^^^ b) := by
  rw [crc32TableEntry, crcStep_iterate_eight (crc ^^^ b), xor_div_256,
    Nat.div_eq_of_lt hb, Nat.xor_zero]

theorem crc_fold_eq (data : Bytes) :
    ∀ crc : Nat, (∀ b ∈ data, b < 256) →
      data.foldl (fun crc b => crc32TableEntry ((crc ^^^ b) % 256) ^^^ crc / 256) crc =
        data.foldl (fun crc b => crcStep^[8] (crc ^^^ b)) crc := by
  induction data with
  | nil => intro crc _; rfl
  | cons x xs ih =>
    intro crc hb
    rw [List.foldl_cons, List.foldl_cons,
      crc_byte_update crc x (hb x (List.mem_cons_self x xs)),
      ih _ (fun b h => hb b (List.mem_cons_of_mem x h))]

theorem crcStep_lt (c : Nat) (h : c < 2 ^ 32) : crcStep c < 2 ^ 32 := by
  unfold crcStep
  split
  · exact lt_of_le_of_lt (Nat.div_le_self c 2) h
  · exact Nat.xor_lt_two_pow (by norm_num) (lt_of_le_of_lt (Nat.div_le_self c 2) h)

theorem crcStep_iterate_lt (n c : Nat) (h : c < 2 ^ 32) : crcStep^[n] c < 2 ^ 32 := by
  induction n generalizing c with
  | zero => exact h
  | succ k ih => rw [Function.iterate_succ_apply]; exact ih _ (crcStep_lt c h)

theorem crc_fold_lt (data : Bytes) :
    ∀ crc : Nat, crc < 2 ^ 32 →
      data.foldl (fun crc b => crc32TableEntry ((crc ^^^ b) % 256) ^^^ crc / 256) crc <
        2 ^ 32 := by
  induction data with
  | nil => intro crc h; exact h
  | cons x xs ih =>
    intro crc h
    rw [List.foldl_cons]
    apply ih
    exact Nat.xor_lt_two_pow
      (crcStep_iterate_lt 8 _ (lt_of_lt_of_le (Nat.mod_lt _ (by norm_num)) (by norm_num)))
      (lt_of_le_of_lt (Nat.div_le_self crc 256) h)

/-- C8: for every byte sequence, the table-driven `calculateCrc32` computes
the standard reflected IEEE 802.3 CRC32 — equal to the bitwise reference
`crc32Reference` (per-byte XOR into the register followed by eight conditional
`0xEDB88320` reductions, initial register `0xFFFFFFFF`, final register XORed
with `0xFFFFFFFF`) — and the result is a 32-bit value. -/
theorem calculateCrc32_spec (data : Bytes) (hb : ∀ b ∈ data, b < 256) :
    calculateCrc32 data = crc32Reference data ∧ calculateCrc32 data < 2 ^ 32 := by
  constructor
  · rw [calculateCrc32, crc32Reference, crc_fold_eq data _ hb]
  · rw [calculateCrc32]
    exact Nat.xor_lt_two_pow (crc_fold_lt data _ (by norm_num)) (by norm_num)

theorem calculateCrc32_spec_witness :
    (∀ b ∈ ([0x31, 0x32, 0x33, 0x34, 0x35, 0x36, 0x37, 0x38, 0x39] : Bytes), b < 256) ∧
    calculateCrc32 [0x31, 0x32, 0x33, 0x34, 0x35, 0x36, 0x37, 0x38, 0x39] =
      crc32Reference [0x31, 0x32, 0x33, 0x34, 0x35, 0x36, 0x37, 0x38, 0x39] :=
  ⟨by decide, (calculateCrc32_spec _ (by decide)).1⟩

set_option maxRecDepth 10000 in
/-- The canonical CRC32 check value: `crc32("123456789") = 0xcbf43926`. -/
theorem calculateCrc32_check_value :
    calculateCrc32 [0x31, 0x32, 0x33, 0x34, 0x35, 0x36, 0x37, 0x38, 0x39] =
      0xcbf43926 := by decide

/-! ### JPEG marker-segment scanning (modelled from the spec) -/

/-- Modelled from the spec's JPEG container structure: walk the marker
segments of a stream (each `FF mm` followed by a 2-byte big-endian length
that counts itself), stopping at EOI/SOS or any structural break, and
count the APP1 (`FF E1`) segments whose payload starts with the 6-byte
`Exif\0\0` identifier. -/
def countSegs : Bytes → Nat
  | b0 :: m :: a :: b :: rest =>
    if b0 = 0xff then
      if m = 0xd9 ∨ m = 0xda then 0
      else
        let segLen := a * 256 + b
        if segLen < 2 then 0
        else
          (if m = 0xe1 ∧ rest.take 6 = exifIdBytes then 1 else 0) +
            countSegs ((a :: b :: rest).drop segLen)
    else 0
  | _ => 0
termination_by l => l.length
decreasing_by simp [List.length_drop]; omega

/-- Number of `Exif\0\0`-carrying APP1 segments of a JPEG stream. -/
def countExifApp1 (bytes : Bytes) : Nat :=
  countSegs (bytes.drop 2)

/-- Modelled from the spec: the TIFF body of the first `Exif\0\0` APP1
segment of a marker-segment stream. -/
def firstSegTiff : Bytes → Option Bytes
  | b0 :: m :: a :: b :: rest =>
    if b0 = 0xff then
      if m = 0xd9 ∨ m = 0xda then none
      else
        let segLen := a * 256 + b
        if segLen < 2 then none
        else if m = 0xe1 ∧ rest.take 6 = exifIdBytes then
          some ((rest.take (segLen - 2)).drop 6)
        else firstSegTiff ((a :: b :: rest).drop segLen)
    else none
  | _ => none
termination_by l => l.length
decreasing_by simp [List.length_drop]; omega

/-- TIFF body of the first `Exif\0\0` APP1 segment of a JPEG file. -/
def firstExifApp1Tiff (bytes : Bytes) : Option Bytes :=
  firstSegTiff (bytes.drop 2)

/-! ### TIFF `ImageDescription` decoding (modelled from the spec) -/

/-- Modelled from the spec's TIFF/EXIF structure: scan the entries of
IFD0 for an ASCII (`type 2`) `ImageDescription` (tag `0x010E`) entry and
return its value bytes without the trailing NUL — inline when the
declared count is at most 4, else at the declared value offset. -/
def findImageDescription (tiff : Bytes) (entryOff : Nat) : Nat → Option Bytes
  | 0 => none
  | k + 1 =>
    if readUInt16BE tiff entryOff = 0x010e ∧ readUInt16BE tiff (entryOff + 2) = 2 then
      let count := readUInt32BE tiff (entryOff + 4)
      if count = 0 then none
      else if count ≤ 4 then
        some ((sliceBytes tiff (entryOff + 8) (entryOff + 8 + count)).take (count - 1))
      else
        some ((sliceBytes tiff (readUInt32BE tiff (entryOff + 8))
          (readUInt32BE tiff (entryOff + 8) + count)).take (count - 1))
    else findImageDescription tiff (entryOff + 12) k

/-- Modelled from the spec: decode the `ImageDescription` text of a
big-endian TIFF blob. -/
def decodeImageDescription (tiff : Bytes) : Option Bytes :=
  if sliceBytes tiff 0 2 = [0x4d, 0x4d] ∧ readUInt16BE tiff 2 = 0x2a then
    findImageDescription tiff (readUInt32BE tiff 4 + 2)
      (readUInt16BE tiff (readUInt32BE tiff 4))
  else none

/-! ### Byte-read helper lemmas -/

theorem getD_drop (l : Bytes) (m i : Nat) : (l.drop m).getD i 0 = l.getD (m + i) 0 := by
  rw [List.getD_eq_getElem?_getD, List.getD_eq_getElem?_getD, List.getElem?_drop]

theorem readUInt32BE_drop (l : Bytes) (off : Nat) :
    readUInt32BE l off = readUInt32BE (l.drop off) 0 := by
  unfold readUInt32BE
  simp only [getD_drop, Nat.add_zero]

theorem u32be_readback (v : Nat) (hv : v < 4294967296) (r : Bytes) :
    readUInt32BE (u32be v ++ r) 0 = v := by
  show v / 16777216 % 256 * 16777216 + v / 65536 % 256 * 65536 +
    v / 256 % 256 * 256 + v % 256 = v
  omega

theorem findImageDescription_succ (tiff : Bytes) (e k : Nat) :
    findImageDescription tiff e (k + 1) =
      if readUInt16BE tiff e = 0x010e ∧ readUInt16BE tiff (e + 2) = 2 then
        let count := readUInt32BE tiff (e + 4)
        if count = 0 then none
        else if count ≤ 4 then
          some ((sliceBytes tiff (e + 8) (e + 8 + count)).take (count - 1))
        else
          some ((sliceBytes tiff (readUInt32BE tiff (e + 8))
            (readUInt32BE tiff (e + 8) + count)).take (count - 1))
      else findImageDescription tiff (e + 12) k := rfl

/-- The inline-value TIFF shape emitted by `buildExifTiff`. -/
def tiffInlineShape (d : Bytes) : Bytes :=
  0x4d :: 0x4d :: 0 :: 0x2a :: 0 :: 0 :: 0 :: 8 :: 0 :: 1 :: 1 :: 0x0e :: 0 :: 2 ::
    (u32be (d.length + 1) ++
      (d ++ 0 :: (List.replicate (4 - (d.length + 1)) 0 ++ [0, 0, 0, 0])))

/-- The out-of-line-value TIFF shape emitted by `buildExifTiff`. -/
def tiffOutlineShape (d : Bytes) : Bytes :=
  0x4d :: 0x4d :: 0 :: 0x2a :: 0 :: 0 :: 0 :: 8 :: 0 :: 1 :: 1 :: 0x0e :: 0 :: 2 ::
    (u32be (d.length + 1) ++ (0 :: 0 :: 0 :: 26 :: 0 :: 0 :: 0 :: 0 :: (d ++ [0])))

theorem buildExifTiff_eq_inline (p : String) (h : (utf8Bytes p).length + 1 ≤ 4) :
    buildExifTiff p = tiffInlineShape (utf8Bytes p) := by
  unfold buildExifTiff tiffInlineShape
  rw [if_pos h]
  simp [u16be, u32be]

theorem buildExifTiff_eq_outline (p : String) (h : ¬ (utf8Bytes p).length + 1 ≤ 4) :
    buildExifTiff p = tiffOutlineShape (utf8Bytes p) := by
  unfold buildExifTiff tiffOutlineShape
  rw [if_neg h]
  simp [u16be, u32be]

theorem readUInt16BE_drop (l : Bytes) (off : Nat) :
    readUInt16BE l off = readUInt16BE (l.drop off) 0 := by
  unfold readUInt16BE
  simp only [getD_drop, Nat.add_zero]

theorem readUInt32BE_cons4 (a0 a1 a2 a3 : Nat) (r : Bytes) :
    readUInt32BE (a0 :: a1 :: a2 :: a3 :: r) 0 =
      a0 * 16777216 + a1 * 65536 + a2 * 256 + a3 := rfl

theorem readUInt16BE_cons2 (a0 a1 : Nat) (r : Bytes) :
    readUInt16BE (a0 :: a1 :: r) 0 = a0 * 256 + a1 := rfl

theorem decode_inline_shape (d : Bytes) (hv : d.length + 1 < 4294967296)
    (hle : d.length + 1 ≤ 4) :
    decodeImageDescription (tiffInlineShape d) = some d := by
  have g2 : readUInt16BE (tiffInlineShape d) 2 = 0x2a := by
    rw [readUInt16BE_drop,
      show (tiffInlineShape d).drop 2 = 0 :: 0x2a :: 0 :: 0 :: 0 :: 8 :: 0 :: 1 :: 1 ::
        0x0e :: 0 :: 2 :: (u32be (d.length + 1) ++
          (d ++ 0 :: (List.replicate (4 - (d.length + 1)) 0 ++ [0, 0, 0, 0]))) from rfl,
      readUInt16BE_cons2]
  have e1 : readUInt32BE (tiffInlineShape d) 4 = 8 := by
    rw [readUInt32BE_drop,
      show (tiffInlineShape d).drop 4 = 0 :: 0 :: 0 :: 8 :: 0 :: 1 :: 1 ::
        0x0e :: 0 :: 2 :: (u32be (d.length + 1) ++
          (d ++ 0 :: (List.replicate (4 - (d.length + 1)) 0 ++ [0, 0, 0, 0]))) from rfl,
      readUInt32BE_cons4]
  have e2 : readUInt16BE (tiffInlineShape d) 8 = 1 := by
    rw [readUInt16BE_drop,
      show (tiffInlineShape d).drop 8 = 0 :: 1 :: 1 ::
        0x0e :: 0 :: 2 :: (u32be (d.length + 1) ++
          (d ++ 0 :: (List.replicate (4 - (d.length + 1)) 0 ++ [0, 0, 0, 0]))) from rfl,
      readUInt16BE_cons2]
  have e3 : readUInt16BE (tiffInlineShape d) (8 + 2) = 0x010e := by
    rw [readUInt16BE_drop,
      show (tiffInlineShape d).drop (8 + 2) = 1 ::
        0x0e :: 0 :: 2 :: (u32be (d.length + 1) ++
          (d ++ 0 :: (List.replicate (4 - (d.length + 1)) 0 ++ [0, 0, 0, 0]))) from rfl,
      readUInt16BE_cons2]
  have e4 : readUInt16BE (tiffInlineShape d) (8 + 2 + 2) = 2 := by
    rw [readUInt16BE_drop,
      show (tiffInlineShape d).drop (8 + 2 + 2) = 0 :: 2 :: (u32be (d.length + 1) ++
          (d ++ 0 :: (List.replicate (4 - (d.length + 1)) 0 ++ [0, 0, 0, 0]))) from rfl,
      readUInt16BE_cons2]
  have e5 : readUInt32BE (tiffInlineShape d) (8 + 2 + 4) = d.length + 1 := by
    rw [readUInt32BE_drop,
      show (tiffInlineShape d).drop (8 + 2 + 4) = u32be (d.length + 1) ++
          (d ++ 0 :: (List.replicate (4 - (d.length + 1)) 0 ++ [0, 0, 0, 0])) from rfl,
      u32be_readback _ hv]
  have e6 : sliceBytes (tiffInlineShape d) (8 + 2 + 8) (8 + 2 + 8 + (d.length + 1)) =
      d ++ [0] := by
    unfold sliceBytes
    rw [show (8 + 2 + 8 + (d.length + 1) - (8 + 2 + 8)) = d.length + 1 from by omega,
      show (tiffInlineShape d).drop (8 + 2 + 8) =
        d ++ 0 :: (List.replicate (4 - (d.length + 1)) 0 ++ [0, 0, 0, 0]) from rfl,
      show (d ++ 0 :: (List.replicate (4 - (d.length + 1)) 0 ++ [0, 0, 0, 0])) =
        (d ++ [0]) ++ (List.replicate (4 - (d.length + 1)) 0 ++ [0, 0, 0, 0]) from by simp,
      List.take_left' (by simp)]
  unfold decodeImageDescription
  rw [if_pos ⟨rfl, g2⟩, e1, e2, findImageDescription_succ, if_pos ⟨e3, e4⟩]
  dsimp only
  rw [e5, if_neg (show ¬ d.length + 1 = 0 from by omega), if_pos hle, e6,
    show d.length + 1 - 1 = d.length from by omega, List.take_left' rfl]

theorem decode_outline_shape (d : Bytes) (hv : d.length + 1 < 4294967296)
    (hgt : ¬ d.length + 1 ≤ 4) :
    decodeImageDescription (tiffOutlineShape d) = some d := by
  have g2 : readUInt16BE (tiffOutlineShape d) 2 = 0x2a := by
    rw [readUInt16BE_drop,
      show (tiffOutlineShape d).drop 2 = 0 :: 0x2a :: 0 :: 0 :: 0 :: 8 :: 0 :: 1 :: 1 ::
        0x0e :: 0 :: 2 :: (u32be (d.length + 1) ++
          (0 :: 0 :: 0 :: 26 :: 0 :: 0 :: 0 :: 0 :: (d ++ [0]))) from rfl,
      readUInt16BE_cons2]
  have e1 : readUInt32BE (tiffOutlineShape d) 4 = 8 := by
    rw [readUInt32BE_drop,
      show (tiffOutlineShape d).drop 4 = 0 :: 0 :: 0 :: 8 :: 0 :: 1 :: 1 ::
        0x0e :: 0 :: 2 :: (u32be (d.length + 1) ++
          (0 :: 0 :: 0 :: 26 :: 0 :: 0 :: 0 :: 0 :: (d ++ [0]))) from rfl,
      readUInt32BE_cons4]
  have e2 : readUInt16BE (tiffOutlineShape d) 8 = 1 := by
    rw [readUInt16BE_drop,
      show (tiffOutlineShape d).drop 8 = 0 :: 1 :: 1 ::
        0x0e :: 0 :: 2 :: (u32be (d.length + 1) ++
          (0 :: 0 :: 0 :: 26 :: 0 :: 0 :: 0 :: 0 :: (d ++ [0]))) from rfl,
      readUInt16BE_cons2]
  have e3 : readUInt16BE (tiffOutlineShape d) (8 + 2) = 0x010e := by
    rw [readUInt16BE_drop,
      show (tiffOutlineShape d).drop (8 + 2) = 1 ::
        0x0e :: 0 :: 2 :: (u32be (d.length + 1) ++
          (0 :: 0 :: 0 :: 26 :: 0 :: 0 :: 0 :: 0 :: (d ++ [0]))) from rfl,
      readUInt16BE_cons2]
  have e4 : readUInt16BE (tiffOutlineShape d) (8 + 2 + 2) = 2 := by
    rw [readUInt16BE_drop,
      show (tiffOutlineShape d).drop (8 + 2 + 2) = 0 :: 2 :: (u32be (d.length + 1) ++
          (0 :: 0 :: 0 :: 26 :: 0 :: 0 :: 0 :: 0 :: (d ++ [0]))) from rfl,
      readUInt16BE_cons2]
  have e5 : readUInt32BE (tiffOutlineShape d) (8 + 2 + 4) = d.length + 1 := by
    rw [readUInt32BE_drop,
      show (tiffOutlineShape d).drop (8 + 2 + 4) = u32be (d.length + 1) ++
          (0 :: 0 :: 0 :: 26 :: 0 :: 0 :: 0 :: 0 :: (d ++ [0])) from rfl,
      u32be_readback _ hv]
  have e7 : readUInt32BE (tiffOutlineShape d) (8 + 2 + 8) = 26 := by
    rw [readUInt32BE_drop,
      show (tiffOutlineShape d).drop (8 + 2 + 8) =
        0 :: 0 :: 0 :: 26 :: (0 :: 0 :: 0 :: 0 :: (d ++ [0])) from rfl,
      readUInt32BE_cons4]
  have e6 : sliceBytes (tiffOutlineShape d) 26 (26 + (d.length + 1)) = d ++ [0] := by
    unfold sliceBytes
    rw [show (26 + (d.length + 1) - 26) = d.length + 1 from by omega,
      show (tiffOutlineShape d).drop 26 = d ++ [0] from rfl]
    exact List.take_of_length_le (by simp)
  unfold decodeImageDescription
  rw [if_pos ⟨rfl, g2⟩, e1, e2, findImageDescription_succ, if_pos ⟨e3, e4⟩]
  dsimp only
  rw [e5, if_neg (show ¬ d.length + 1 = 0 from by omega), if_neg hgt, e7, e6,
    show d.length + 1 - 1 = d.length from by omega, List.take_left' rfl]

theorem decodeImageDescription_buildExifTiff (p : String)
    (h : (utf8Bytes p).length + 1 < 4294967296) :
    decodeImageDescription (buildExifTiff p) = some (utf8Bytes p) := by
  by_cases hle : (utf8Bytes p).length + 1 ≤ 4
  · rw [buildExifTiff_eq_inline p hle]
    exact decode_inline_shape _ h hle
  · rw [buildExifTiff_eq_outline p hle]
    exact decode_outline_shape _ h hle

theorem countSegs_cons (b0 m a b : Nat) (rest : Bytes) :
    countSegs (b0 :: m :: a :: b :: rest) =
      if b0 = 0xff then
        if m = 0xd9 ∨ m = 0xda then 0
        else
          let segLen := a * 256 + b
          if segLen < 2 then 0
          else
            (if m = 0xe1 ∧ rest.take 6 = exifIdBytes then 1 else 0) +
              countSegs ((a :: b :: rest).drop segLen)
      else 0 := by
  rw [countSegs.eq_def]

theorem firstSegTiff_cons (b0 m a b : Nat) (rest : Bytes) :
    firstSegTiff (b0 :: m :: a :: b :: rest) =
      if b0 = 0xff then
        if m = 0xd9 ∨ m = 0xda then none
        else
          let segLen := a * 256 + b
          if segLen < 2 then none
          else if m = 0xe1 ∧ rest.take 6 = exifIdBytes then
            some ((rest.take (segLen - 2)).drop 6)
          else firstSegTiff ((a :: b :: rest).drop segLen)
      else none := by
  rw [firstSegTiff.eq_def]

theorem u16be_val (v : Nat) (hv : v < 65536) : v / 256 % 256 * 256 + v % 256 = v := by
  omega

theorem buildExifTiff_length (p : String) :
    (buildExifTiff p).length =
      if (utf8Bytes p).length + 1 ≤ 4 then 26 else 26 + ((utf8Bytes p).length + 1) := by
  unfold buildExifTiff
  by_cases h : (utf8Bytes p).length + 1 ≤ 4
  · rw [if_pos h, if_pos h]
    simp [u16be, u32be]
    omega
  · rw [if_neg h, if_neg h]
    simp [u16be, u32be]
    omega

/-- C3 (amended): for every valid JPEG input (at least 4 bytes beginning with
`FF D8`) and prompt whose built segment fits the 16-bit length field, the
output of `injectJpegExif` is SOI ++ APP1 Exif segment ++ rest-of-input: it
begins with `FF D8`, carries exactly one more `Exif\0\0` APP1 segment than
the input (hence exactly one when the input carries none), the first APP1
segment's body is the built TIFF, and decoding that TIFF's `ImageDescription`
value yields exactly the UTF-8 bytes of the prompt.  (The original claim's
"exactly one APP1 segment" fails on already-tagged inputs, see the
counterexample.) -/
theorem injectJpegExif_structure (bytes : Bytes) (p : String)
    (h4 : 4 ≤ bytes.length) (hsoi : sliceBytes bytes 0 2 = JPEG_SOI)
    (hfit : (exifIdBytes ++ buildExifTiff p).length + 2 ≤ 0xffff) :
    injectJpegExif bytes p = JPEG_SOI ++ u16be 0xffe1 ++
      u16be ((exifIdBytes ++ buildExifTiff p).length + 2) ++
      (exifIdBytes ++ buildExifTiff p) ++ bytes.drop 2 ∧
    sliceBytes (injectJpegExif bytes p) 0 2 = JPEG_SOI ∧
    countExifApp1 (injectJpegExif bytes p) = countExifApp1 bytes + 1 ∧
    firstExifApp1Tiff (injectJpegExif bytes p) = some (buildExifTiff p) ∧
    decodeImageDescription (buildExifTiff p) = some (utf8Bytes p) := by
  have hv : (utf8Bytes p).length + 1 < 4294967296 := by
    have hlen := buildExifTiff_length p
    have h6 : (exifIdBytes ++ buildExifTiff p).length = 6 + (buildExifTiff p).length := by
      simp [exifIdBytes]
      omega
    by_cases h4' : (utf8Bytes p).length + 1 ≤ 4
    · omega
    · rw [if_neg h4'] at hlen
      omega
  have hout : injectJpegExif bytes p = JPEG_SOI ++ u16be 0xffe1 ++
      u16be ((exifIdBytes ++ buildExifTiff p).length + 2) ++
      (exifIdBytes ++ buildExifTiff p) ++ bytes.drop 2 := by
    unfold injectJpegExif
    rw [if_neg (by push_neg; exact ⟨by omega, hsoi⟩)]
    dsimp only
    rw [if_neg (show ¬ (exifIdBytes ++ buildExifTiff p).length + 2 > 0xffff from by
      omega), hsoi]
  have hdrop2 : (JPEG_SOI ++ u16be 0xffe1 ++
      u16be ((exifIdBytes ++ buildExifTiff p).length + 2) ++
      (exifIdBytes ++ buildExifTiff p) ++ bytes.drop 2).drop 2 =
      255 :: 225 :: (((exifIdBytes ++ buildExifTiff p).length + 2) / 256 % 256) ::
        (((exifIdBytes ++ buildExifTiff p).length + 2) % 256) ::
        (exifIdBytes ++ (buildExifTiff p ++ bytes.drop 2)) := by
    simp [JPEG_SOI, u16be]
  have hL : ((exifIdBytes ++ buildExifTiff p).length + 2) / 256 % 256 * 256 +
      ((exifIdBytes ++ buildExifTiff p).length + 2) % 256 =
      (exifIdBytes ++ buildExifTiff p).length + 2 :=
    u16be_val _ (by omega)
  have htake6 : (exifIdBytes ++ (buildExifTiff p ++ bytes.drop 2)).take 6 =
      exifIdBytes := by
    rw [List.take_append_of_le_length (by simp [exifIdBytes])]
    rfl
  have hdropL : ((((exifIdBytes ++ buildExifTiff p).length + 2) / 256 % 256) ::
      (((exifIdBytes ++ buildExifTiff p).length + 2) % 256) ::
      (exifIdBytes ++ (buildExifTiff p ++ bytes.drop 2))).drop
        ((exifIdBytes ++ buildExifTiff p).length + 2) = bytes.drop 2 := by
    rw [List.drop_succ_cons, List.drop_succ_cons,
      show (exifIdBytes ++ buildExifTiff p).length =
        exifIdBytes.length + (buildExifTiff p).length from by simp,
      List.drop_append, List.drop_left]
  refine ⟨hout, ?_, ?_, ?_, decodeImageDescription_buildExifTiff p hv⟩
  · rw [hout]
    rfl
  · rw [hout]
    unfold countExifApp1
    rw [hdrop2, countSegs_cons, if_pos rfl,
      if_neg (show ¬ ((225:Nat) = 0xd9 ∨ (225:Nat) = 0xda) from by omega)]
    dsimp only
    rw [hL, if_neg (show ¬ (exifIdBytes ++ buildExifTiff p).length + 2 < 2 from by omega),
      if_pos ⟨rfl, htake6⟩, hdropL]
    omega
  · rw [hout]
    unfold firstExifApp1Tiff
    rw [hdrop2, firstSegTiff_cons, if_pos rfl,
      if_neg (show ¬ ((225:Nat) = 0xd9 ∨ (225:Nat) = 0xda) from by omega)]
    dsimp only
    rw [hL, if_neg (show ¬ (exifIdBytes ++ buildExifTiff p).length + 2 < 2 from by omega),
      if_pos ⟨rfl, htake6⟩,
      show (exifIdBytes ++ buildExifTiff p).length + 2 - 2 =
        exifIdBytes.length + (buildExifTiff p).length from by simp,
      List.take_append, List.take_left,
      show (6 : Nat) = exifIdBytes.length from rfl, List.drop_left]

theorem injectJpegExif_structure_witness :
    sliceBytes (injectJpegExif [0xff, 0xd8, 0xff, 0xd9] "a") 0 2 = JPEG_SOI :=
  (injectJpegExif_structure [0xff, 0xd8, 0xff, 0xd9] "a" (by norm_num) (by decide)
    (by decide)).2.1

/-- C3 counterexample: injecting into a JPEG that already carries an Exif
APP1 segment (itself a valid JPEG input under the claim's hypotheses) yields
two Exif APP1 segments, not exactly one. -/
theorem injectJpegExif_exactly_one_cex :
    4 ≤ (injectJpegExif [0xff, 0xd8, 0xff, 0xd9] "a").length ∧
    sliceBytes (injectJpegExif [0xff, 0xd8, 0xff, 0xd9] "a") 0 2 = JPEG_SOI ∧
    countExifApp1 (injectJpegExif (injectJpegExif [0xff, 0xd8, 0xff, 0xd9] "a") "a") =
      2 := by
  have h1 : injectJpegExif [0xff, 0xd8, 0xff, 0xd9] "a" =
      [255, 216, 255, 225, 0, 34, 69, 120, 105, 102, 0, 0, 77, 77, 0, 42, 0, 0, 0, 8,
       0, 1, 1, 14, 0, 2, 0, 0, 0, 2, 97, 0, 0, 0, 0, 0, 0, 0, 255, 217] := by decide
  have h2 : injectJpegExif
      [255, 216, 255, 225, 0, 34, 69, 120, 105, 102, 0, 0, 77, 77, 0, 42, 0, 0, 0, 8,
       0, 1, 1, 14, 0, 2, 0, 0, 0, 2, 97, 0, 0, 0, 0, 0, 0, 0, 255, 217] "a" =
      [255, 216, 255, 225, 0, 34, 69, 120, 105, 102, 0, 0, 77, 77, 0, 42, 0, 0, 0, 8,
       0, 1, 1, 14, 0, 2, 0, 0, 0, 2, 97, 0, 0, 0, 0, 0, 0, 0,
       255, 225, 0, 34, 69, 120, 105, 102, 0, 0, 77, 77, 0, 42, 0, 0, 0, 8,
       0, 1, 1, 14, 0, 2, 0, 0, 0, 2, 97, 0, 0, 0, 0, 0, 0, 0, 255, 217] := by decide
  refine ⟨by rw [h1]; decide, by rw [h1]; decide, ?_⟩
  rw [h1, h2]
  unfold countExifApp1
  simp only [List.drop_succ_cons, List.drop_zero]
  rw [countSegs_cons]
  norm_num [exifIdBytes]
  rw [countSegs_cons]
  norm_num [exifIdBytes]
  rw [countSegs.eq_def]
  norm_num

/-! ### PNG chunk scanning on the remaining buffer -/

/-- `extractPngChunksAux` re-expressed on the remainder of the buffer
(`bytes.drop offset`); used to reason about the scanning loop by
structural descent. -/
def extractChunksRem (rem : Bytes) : Option (List PngChunk) :=
  if 12 ≤ rem.length then
    let length := readUInt32BE rem 0
    if 12 + length > rem.length then
      none
    else
      let ty := asciiMask (sliceBytes rem 4 8)
      let data := sliceBytes rem 8 (8 + length)
      if ty = IENDType then
        some [⟨ty, data⟩]
      else
        (extractChunksRem (rem.drop (12 + length))).map (⟨ty, data⟩ :: ·)
  else
    some []
termination_by rem.length
decreasing_by simp only [List.length_drop]; omega

/-- Scan of all serialized chunks with no stop at `IEND` (used to state
how many `eXIf` chunks the emitted byte stream holds). -/
def scanAllChunksRem (rem : Bytes) : List PngChunk :=
  if 12 ≤ rem.length then
    let length := readUInt32BE rem 0
    if 12 + length > rem.length then
      []
    else
      ⟨asciiMask (sliceBytes rem 4 8), sliceBytes rem 8 (8 + length)⟩ ::
        scanAllChunksRem (rem.drop (12 + length))
  else
    []
termination_by rem.length
decreasing_by simp only [List.length_drop]; omega

/-- Modelled from the spec: walk the chunk records of a serialized stream
(as the parser does, stopping after `IEND`) and check that every stored
4-byte CRC field equals `crc32(type ++ data)`. -/
def crcScanOk (rem : Bytes) : Bool :=
  if 12 ≤ rem.length then
    let length := readUInt32BE rem 0
    if 12 + length > rem.length then
      false
    else
      (readUInt32BE rem (8 + length) ==
        calculateCrc32 (sliceBytes rem 4 8 ++ sliceBytes rem 8 (8 + length))) &&
      (if asciiMask (sliceBytes rem 4 8) = IENDType then true
       else crcScanOk (rem.drop (12 + length)))
  else
    true
termination_by rem.length
decreasing_by simp only [List.length_drop]; omega

/-- The prefix of a chunk list up to and including its first `IEND`. -/
def truncAtIEND : List PngChunk → List PngChunk
  | [] => []
  | c :: rest => if c.type = IENDType then [c] else c :: truncAtIEND rest

/-- Wellformedness of a chunk as produced by the parser: a 4-byte type of
7-bit values and data that fits the 4-byte length field. -/
def chunkWF (c : PngChunk) : Prop :=
  c.type.length = 4 ∧ (∀ b ∈ c.type, b < 128) ∧ c.data.length < 4294967296

theorem extractPngChunksAux_eq_rem_fuel :
    ∀ (fuel : Nat) (bytes : Bytes) (off : Nat), bytes.length - off ≤ fuel →
      extractPngChunksAux bytes off = extractChunksRem (bytes.drop off) := by
  intro fuel
  induction fuel with
  | zero =>
    intro bytes off h
    rw [extractPngChunksAux.eq_def, extractChunksRem.eq_def]
    have hlen : (bytes.drop off).length = bytes.length - off := List.length_drop off bytes
    rw [if_neg (show ¬ off + 12 ≤ bytes.length from by omega),
      if_neg (show ¬ 12 ≤ (bytes.drop off).length from by omega)]
  | succ k ih =>
    intro bytes off h
    rw [extractPngChunksAux.eq_def, extractChunksRem.eq_def]
    have hlen : (bytes.drop off).length = bytes.length - off := List.length_drop off bytes
    by_cases h1 : off + 12 ≤ bytes.length
    case neg =>
      rw [if_neg h1, if_neg (show ¬ 12 ≤ (bytes.drop off).length from by omega)]
    case pos =>
      rw [if_pos h1, if_pos (show 12 ≤ (bytes.drop off).length from by omega)]
      have hr : readUInt32BE bytes off = readUInt32BE (bytes.drop off) 0 :=
        readUInt32BE_drop bytes off
      dsimp only
      rw [← hr]
      by_cases h2 : off + 12 + readUInt32BE bytes off > bytes.length
      · rw [if_pos h2, if_pos (show 12 + readUInt32BE bytes off >
          (bytes.drop off).length from by omega)]
      · rw [if_neg h2, if_neg (show ¬ 12 + readUInt32BE bytes off >
          (bytes.drop off).length from by omega)]
        have hty : sliceBytes bytes (off + 4) (off + 8) = sliceBytes (bytes.drop off) 4 8 := by
          unfold sliceBytes
          rw [show off + 8 - (off + 4) = 8 - 4 from by omega, List.drop_drop]
        have hdata : sliceBytes bytes (off + 8) (off + 8 + readUInt32BE bytes off) =
            sliceBytes (bytes.drop off) 8 (8 + readUInt32BE bytes off) := by
          unfold sliceBytes
          rw [show off + 8 + readUInt32BE bytes off - (off + 8) =
            8 + readUInt32BE bytes off - 8 from by omega, List.drop_drop]
        rw [← hty, ← hdata]
        by_cases h3 : asciiMask (sliceBytes bytes (off + 4) (off + 8)) = IENDType
        · rw [if_pos h3, if_pos h3]
        · rw [if_neg h3, if_neg h3]
          rw [List.drop_drop, show off + (12 + readUInt32BE bytes off) =
            off + 12 + readUInt32BE bytes off from by omega]
          rw [ih bytes (off + 12 + readUInt32BE bytes off) (by omega)]

theorem extractPngChunksAux_eq_rem (bytes : Bytes) (off : Nat) :
    extractPngChunksAux bytes off = extractChunksRem (bytes.drop off) :=
  extractPngChunksAux_eq_rem_fuel (bytes.length - off) bytes off (by omega)

theorem extractPngChunks_eq_rem (bytes : Bytes) :
    extractPngChunks bytes = (extractChunksRem (bytes.drop 8)).getD [] := by
  rw [extractPngChunks, extractPngChunksAux_eq_rem]

theorem calculateCrc32_lt (data : Bytes) : calculateCrc32 data < 4294967296 := by
  have h : calculateCrc32 data < 2 ^ 32 := by
    rw [calculateCrc32]
    exact Nat.xor_lt_two_pow (crc_fold_lt data 0xffffffff (by norm_num)) (by norm_num)
  norm_num at h
  exact h

theorem asciiMask_eq_self (l : Bytes) (h : ∀ b ∈ l, b < 128) : asciiMask l = l := by
  induction l with
  | nil => rfl
  | cons x xs ih =>
    rw [show asciiMask (x :: xs) = x % 128 :: asciiMask xs from rfl,
      Nat.mod_eq_of_lt (h x (List.mem_cons_self x xs)),
      ih (fun b hb => h b (List.mem_cons_of_mem x hb))]

theorem buildPngChunk_cons_length (ty data rest : Bytes) (h4 : ty.length = 4) :
    (buildPngChunk ty data ++ rest).length = 12 + data.length + rest.length := by
  simp [buildPngChunk, u32be, h4]
  omega

theorem buildPngChunk_read0 (ty data rest : Bytes) (hdl : data.length < 4294967296) :
    readUInt32BE (buildPngChunk ty data ++ rest) 0 = data.length := by
  rw [show buildPngChunk ty data ++ rest = u32be data.length ++
      (ty ++ (data ++ (u32be (calculateCrc32 (ty ++ data)) ++ rest))) from by
    simp [buildPngChunk, List.append_assoc], u32be_readback _ hdl]

theorem buildPngChunk_slice_ty (ty data rest : Bytes) (h4 : ty.length = 4) :
    sliceBytes (buildPngChunk ty data ++ rest) 4 8 = ty := by
  unfold sliceBytes
  rw [show buildPngChunk ty data ++ rest = u32be data.length ++
      (ty ++ (data ++ (u32be (calculateCrc32 (ty ++ data)) ++ rest))) from by
    simp [buildPngChunk, List.append_assoc],
    List.drop_left' (show (u32be data.length).length = 4 from by simp [u32be]),
    show (8 - 4 : Nat) = 4 from rfl, List.take_left' h4]

theorem buildPngChunk_slice_data (ty data rest : Bytes) (h4 : ty.length = 4) :
    sliceBytes (buildPngChunk ty data ++ rest) 8 (8 + data.length) = data := by
  unfold sliceBytes
  rw [show buildPngChunk ty data ++ rest = (u32be data.length ++ ty) ++
      (data ++ (u32be (calculateCrc32 (ty ++ data)) ++ rest)) from by
    simp [buildPngChunk, List.append_assoc],
    List.drop_left' (show (u32be data.length ++ ty).length = 8 from by simp [u32be, h4]),
    show 8 + data.length - 8 = data.length from by omega,
    List.take_left' rfl]

theorem buildPngChunk_read_crc (ty data rest : Bytes) (h4 : ty.length = 4) :
    readUInt32BE (buildPngChunk ty data ++ rest) (8 + data.length) =
      calculateCrc32 (ty ++ data) := by
  rw [readUInt32BE_drop,
    show buildPngChunk ty data ++ rest = ((u32be data.length ++ ty) ++ data) ++
      (u32be (calculateCrc32 (ty ++ data)) ++ rest) from by
    simp [buildPngChunk, List.append_assoc],
    List.drop_left' (show ((u32be data.length ++ ty) ++ data).length = 8 + data.length
      from by simp [u32be, h4]; omega),
    u32be_readback _ (calculateCrc32_lt _)]

theorem buildPngChunk_drop (ty data rest : Bytes) (h4 : ty.length = 4) :
    (buildPngChunk ty data ++ rest).drop (12 + data.length) = rest := by
  rw [show buildPngChunk ty data ++ rest = (((u32be data.length ++ ty) ++ data) ++
      u32be (calculateCrc32 (ty ++ data))) ++ rest from by
    simp [buildPngChunk, List.append_assoc],
    List.drop_left' (show (((u32be data.length ++ ty) ++ data) ++
      u32be (calculateCrc32 (ty ++ data))).length = 12 + data.length from by
      simp [u32be, h4]; omega)]

theorem pngChunksSerialize_cons (c : PngChunk) (cl : List PngChunk) :
    pngChunksSerialize (c :: cl) = buildPngChunk c.type c.data ++ pngChunksSerialize cl := by
  simp [pngChunksSerialize]

theorem scanAllChunksRem_serialize (cl : List PngChunk) (hwf : ∀ c ∈ cl, chunkWF c) :
    scanAllChunksRem (pngChunksSerialize cl) = cl := by
  induction cl with
  | nil =>
    rw [show pngChunksSerialize [] = [] from rfl, scanAllChunksRem.eq_def]
    norm_num
  | cons c cl ih =>
    obtain ⟨h4, h7, hdl⟩ := hwf c (List.mem_cons_self c cl)
    rw [pngChunksSerialize_cons, scanAllChunksRem.eq_def,
      buildPngChunk_cons_length c.type c.data (pngChunksSerialize cl) h4]
    dsimp only
    rw [buildPngChunk_read0 _ _ _ hdl,
      if_pos (show (12 : Nat) ≤ 12 + c.data.length + (pngChunksSerialize cl).length
        from by omega),
      if_neg (show ¬ 12 + c.data.length >
        12 + c.data.length + (pngChunksSerialize cl).length from by omega),
      buildPngChunk_slice_ty _ _ _ h4, asciiMask_eq_self _ h7,
      buildPngChunk_slice_data _ _ _ h4, buildPngChunk_drop _ _ _ h4,
      ih (fun x hx => hwf x (List.mem_cons_of_mem c hx))]

theorem extractChunksRem_serialize (cl : List PngChunk) (hwf : ∀ c ∈ cl, chunkWF c) :
    extractChunksRem (pngChunksSerialize cl) = some (truncAtIEND cl) := by
  induction cl with
  | nil =>
    rw [show pngChunksSerialize [] = [] from rfl, extractChunksRem.eq_def]
    norm_num
    rfl
  | cons c cl ih =>
    obtain ⟨h4, h7, hdl⟩ := hwf c (List.mem_cons_self c cl)
    rw [extractChunksRem.eq_def,
      pngChunksSerialize_cons,
      buildPngChunk_cons_length c.type c.data (pngChunksSerialize cl) h4]
    dsimp only
    rw [buildPngChunk_read0 _ _ _ hdl,
      if_pos (show (12 : Nat) ≤ 12 + c.data.length + (pngChunksSerialize cl).length
        from by omega),
      if_neg (show ¬ 12 + c.data.length >
        12 + c.data.length + (pngChunksSerialize cl).length from by omega),
      buildPngChunk_slice_ty _ _ _ h4, asciiMask_eq_self _ h7,
      buildPngChunk_slice_data _ _ _ h4, buildPngChunk_drop _ _ _ h4]
    by_cases hI : c.type = IENDType
    · rw [if_pos hI, show truncAtIEND (c :: cl) = [c] from by
        rw [truncAtIEND]; rw [if_pos hI]]
    · rw [if_neg hI, ih (fun x hx => hwf x (List.mem_cons_of_mem c hx)),
        show truncAtIEND (c :: cl) = c :: truncAtIEND cl from by
        rw [truncAtIEND]; rw [if_neg hI]]
      rfl

theorem crcScanOk_serialize (cl : List PngChunk) (hwf : ∀ c ∈ cl, chunkWF c) :
    crcScanOk (pngChunksSerialize cl) = true := by
  induction cl with
  | nil =>
    rw [show pngChunksSerialize [] = [] from rfl, crcScanOk.eq_def]
    norm_num
  | cons c cl ih =>
    obtain ⟨h4, h7, hdl⟩ := hwf c (List.mem_cons_self c cl)
    rw [crcScanOk.eq_def,
      pngChunksSerialize_cons,
      buildPngChunk_cons_length c.type c.data (pngChunksSerialize cl) h4]
    dsimp only
    rw [buildPngChunk_read0 _ _ _ hdl,
      if_pos (show (12 : Nat) ≤ 12 + c.data.length + (pngChunksSerialize cl).length
        from by omega),
      if_neg (show ¬ 12 + c.data.length >
        12 + c.data.length + (pngChunksSerialize cl).length from by omega),
      buildPngChunk_slice_ty _ _ _ h4, asciiMask_eq_self _ h7,
      buildPngChunk_slice_data _ _ _ h4, buildPngChunk_read_crc _ _ _ h4,
      buildPngChunk_drop _ _ _ h4]
    simp only [beq_self_eq_true, Bool.true_and]
    by_cases hI : c.type = IENDType
    · rw [if_pos hI]
    · rw [if_neg hI, ih (fun x hx => hwf x (List.mem_cons_of_mem c hx))]

theorem getD_lt_256 (rem : Bytes) (hb : ∀ b ∈ rem, b < 256) (i : Nat) :
    rem.getD i 0 < 256 := by
  induction rem generalizing i with
  | nil => simp [List.getD]
  | cons x xs ih =>
    cases i with
    | zero =>
      rw [List.getD_cons_zero]
      exact hb x (List.mem_cons_self x xs)
    | succ k =>
      rw [List.getD_cons_succ]
      exact ih (fun b hbm => hb b (List.mem_cons_of_mem x hbm)) k

theorem readUInt32BE_lt (rem : Bytes) (hb : ∀ b ∈ rem, b < 256) (off : Nat) :
    readUInt32BE rem off < 4294967296 := by
  unfold readUInt32BE
  have h0 := getD_lt_256 rem hb off
  have h1 := getD_lt_256 rem hb (off + 1)
  have h2 := getD_lt_256 rem hb (off + 2)
  have h3 := getD_lt_256 rem hb (off + 3)
  omega

theorem readUInt32BE_append_left (l r : Bytes) (off : Nat) (h : off + 4 ≤ l.length) :
    readUInt32BE (l ++ r) off = readUInt32BE l off := by
  unfold readUInt32BE
  rw [List.getD_append l r 0 off (by omega), List.getD_append l r 0 (off + 1) (by omega),
    List.getD_append l r 0 (off + 2) (by omega), List.getD_append l r 0 (off + 3) (by omega)]

theorem sliceBytes_append_left (l r : Bytes) (a b : Nat) (hab : a ≤ b)
    (hb : b ≤ l.length) : sliceBytes (l ++ r) a b = sliceBytes l a b := by
  unfold sliceBytes
  rw [List.drop_append_of_le_length (by omega),
    List.take_append_of_le_length (by simp only [List.length_drop]; omega)]

theorem extractChunksRem_dropLast_fuel :
    ∀ (fuel : Nat) (rem : Bytes), rem.length ≤ fuel →
      ∀ cl, extractChunksRem rem = some cl →
        ∀ x ∈ cl.dropLast, x.type ≠ IENDType := by
  intro fuel
  induction fuel with
  | zero =>
    intro rem hf cl hp
    rw [extractChunksRem.eq_def, if_neg (show ¬ 12 ≤ rem.length from by omega)] at hp
    cases hp
    simp
  | succ k ih =>
    intro rem hf cl hp
    rw [extractChunksRem.eq_def] at hp
    split at hp
    case isFalse =>
      cases hp
      simp
    case isTrue h12 =>
      dsimp only at hp
      split at hp
      case isTrue => exact absurd hp (by simp)
      case isFalse hov =>
        split at hp
        case isTrue hIend =>
          cases hp
          simp
        case isFalse hne =>
          rw [Option.map_eq_some'] at hp
          obtain ⟨cl', hp', hcl⟩ := hp
          subst hcl
          have hrec := ih (rem.drop (12 + readUInt32BE rem 0))
            (by simp only [List.length_drop]; omega) cl' hp'
          intro x hx
          cases cl' with
          | nil => simp at hx
          | cons y ys =>
            rw [List.dropLast_cons₂] at hx
            rcases List.mem_cons.mp hx with hx1 | hx2
            · subst hx1
              exact hne
            · exact hrec x hx2

theorem extractChunksRem_append_junk_fuel :
    ∀ (fuel : Nat) (rem : Bytes), rem.length ≤ fuel →
      ∀ (junk : Bytes) (cl : List PngChunk), extractChunksRem rem = some cl →
        (cl.map PngChunk.type).getLast? = some IENDType →
        extractChunksRem (rem ++ junk) = some cl := by
  intro fuel
  induction fuel with
  | zero =>
    intro rem hf junk cl hp hlast
    rw [extractChunksRem.eq_def, if_neg (show ¬ 12 ≤ rem.length from by omega)] at hp
    cases hp
    simp at hlast
  | succ k ih =>
    intro rem hf junk cl hp hlast
    rw [extractChunksRem.eq_def] at hp
    split at hp
    case isFalse =>
      cases hp
      simp at hlast
    case isTrue h12 =>
      dsimp only at hp
      split at hp
      case isTrue => exact absurd hp (by simp)
      case isFalse hov =>
        have hread : readUInt32BE (rem ++ junk) 0 = readUInt32BE rem 0 :=
          readUInt32BE_append_left rem junk 0 (by omega)
        have hty : sliceBytes (rem ++ junk) 4 8 = sliceBytes rem 4 8 :=
          sliceBytes_append_left rem junk 4 8 (by omega) (by omega)
        have hdata : sliceBytes (rem ++ junk) 8 (8 + readUInt32BE rem 0) =
            sliceBytes rem 8 (8 + readUInt32BE rem 0) :=
          sliceBytes_append_left rem junk 8 (8 + readUInt32BE rem 0) (by omega) (by omega)
        rw [extractChunksRem.eq_def,
          if_pos (show 12 ≤ (rem ++ junk).length from by
            simp only [List.length_append]; omega)]
        dsimp only
        rw [hread, hty, hdata,
          if_neg (show ¬ 12 + readUInt32BE rem 0 > (rem ++ junk).length from by
            simp only [List.length_append]; omega)]
        split at hp
        case isTrue hIend =>
          rw [if_pos hIend]
          exact hp
        case isFalse hne =>
          rw [if_neg hne]
          rw [Option.map_eq_some'] at hp
          obtain ⟨cl', hp', hcl⟩ := hp
          subst hcl
          have hlast' : (cl'.map PngChunk.type).getLast? = some IENDType := by
            cases cl' with
            | nil =>
              simp at hlast
              exact absurd hlast hne
            | cons y ys =>
              rw [List.map_cons, List.map_cons, List.getLast?_cons_cons] at hlast
              rw [List.map_cons]
              exact hlast
          rw [List.drop_append_of_le_length (by omega),
            ih (rem.drop (12 + readUInt32BE rem 0))
              (by simp only [List.length_drop]; omega) junk cl' hp' hlast']
          rfl

theorem extractChunksRem_wf_fuel :
    ∀ (fuel : Nat) (rem : Bytes), rem.length ≤ fuel → (∀ b ∈ rem, b < 256) →
      ∀ cl, extractChunksRem rem = some cl → ∀ c ∈ cl, chunkWF c := by
  intro fuel
  induction fuel with
  | zero =>
    intro rem hf hb cl hp
    rw [extractChunksRem.eq_def, if_neg (show ¬ 12 ≤ rem.length from by omega)] at hp
    cases hp
    simp
  | succ k ih =>
    intro rem hf hb cl hp
    rw [extractChunksRem.eq_def] at hp
    split at hp
    case isFalse =>
      cases hp
      simp
    case isTrue h12 =>
      dsimp only at hp
      split at hp
      case isTrue => exact absurd hp (by simp)
      case isFalse hov =>
        have hL : readUInt32BE rem 0 < 4294967296 := readUInt32BE_lt rem hb 0
        have hwfc : chunkWF ⟨asciiMask (sliceBytes rem 4 8),
            sliceBytes rem 8 (8 + readUInt32BE rem 0)⟩ := by
          refine ⟨?_, ?_, ?_⟩
          · show (asciiMask (sliceBytes rem 4 8)).length = 4
            unfold asciiMask sliceBytes
            rw [List.length_map, List.length_take, List.length_drop]
            omega
          · intro b hbm
            obtain ⟨y, _, hy⟩ := List.mem_map.mp hbm
            omega
          · show (sliceBytes rem 8 (8 + readUInt32BE rem 0)).length < 4294967296
            unfold sliceBytes
            rw [List.length_take, List.length_drop]
            omega
        split at hp
        case isTrue hIend =>
          cases hp
          intro c hc
          rw [List.mem_singleton] at hc
          subst hc
          exact hwfc
        case isFalse hne =>
          rw [Option.map_eq_some'] at hp
          obtain ⟨cl', hp', hcl⟩ := hp
          subst hcl
          intro c hc
          rcases List.mem_cons.mp hc with hc1 | hc2
          · subst hc1
            exact hwfc
          · exact ih (rem.drop (12 + readUInt32BE rem 0))
              (by simp only [List.length_drop]; omega)
              (fun b hbm => hb b (List.drop_subset _ rem hbm)) cl' hp' c hc2

theorem extractPngChunks_ne_nil_length (bytes : Bytes)
    (h : extractPngChunks bytes ≠ []) : 8 ≤ bytes.length := by
  by_contra h8
  apply h
  rw [extractPngChunks_eq_rem, extractChunksRem.eq_def,
    if_neg (show ¬ 12 ≤ (bytes.drop 8).length from by
      simp only [List.length_drop]; omega)]
  rfl

theorem extractPngChunks_wf (bytes : Bytes) (hb : ∀ b ∈ bytes, b < 256) :
    ∀ c ∈ extractPngChunks bytes, chunkWF c := by
  rw [extractPngChunks_eq_rem]
  cases hp : extractChunksRem (bytes.drop 8) with
  | none => simp
  | some cl =>
    simp only [Option.getD_some]
    exact extractChunksRem_wf_fuel (bytes.drop 8).length (bytes.drop 8) le_rfl
      (fun b hbm => hb b (List.drop_subset _ bytes hbm)) cl hp

theorem extractPngChunks_dropLast (bytes : Bytes) :
    ∀ x ∈ (extractPngChunks bytes).dropLast, x.type ≠ IENDType := by
  rw [extractPngChunks_eq_rem]
  cases hp : extractChunksRem (bytes.drop 8) with
  | none => simp
  | some cl =>
    simp only [Option.getD_some]
    exact extractChunksRem_dropLast_fuel (bytes.drop 8).length (bytes.drop 8) le_rfl cl hp

theorem insertIdx_take_drop (n : Nat) (a : PngChunk) (l : List PngChunk)
    (h : n ≤ l.length) : l.insertIdx n a = l.take n ++ a :: l.drop n := by
  induction l generalizing n with
  | nil =>
    cases n with
    | zero => rfl
    | succ k => simp at h
  | cons x xs ih =>
    cases n with
    | zero => rfl
    | succ k =>
      rw [List.insertIdx_succ_cons, List.take_succ_cons, List.drop_succ_cons,
        ih k (by simpa using h)]
      rfl

theorem pngInsertIndex_le (l : List PngChunk) : pngInsertIndex l ≤ l.length := by
  unfold pngInsertIndex
  cases hf : l.findIdx? (fun c => c.type = IDATType) with
  | none => exact le_rfl
  | some i =>
    have hi := (List.findIdx?_eq_some_iff_findIdx_eq.mp hf).1
    simp only
    omega

theorem truncAtIEND_no_iend (l : List PngChunk) (h : ∀ x ∈ l, x.type ≠ IENDType) :
    truncAtIEND l = l := by
  induction l with
  | nil => rfl
  | cons c cl ih =>
    simp only [truncAtIEND]
    rw [if_neg (h c (List.mem_cons_self c cl)),
      ih (fun x hx => h x (List.mem_cons_of_mem c hx))]

theorem truncAtIEND_append_iend (u : List PngChunk) (c : PngChunk) (v : List PngChunk)
    (hu : ∀ x ∈ u, x.type ≠ IENDType) (hc : c.type = IENDType) :
    truncAtIEND (u ++ c :: v) = u ++ [c] := by
  induction u with
  | nil =>
    simp only [List.nil_append, truncAtIEND]
    rw [if_pos hc]
  | cons y ys ih =>
    simp only [List.cons_append, truncAtIEND, List.append_eq]
    rw [if_neg (hu y (List.mem_cons_self y ys)),
      ih (fun x hx => hu x (List.mem_cons_of_mem y hx))]

theorem truncAtIEND_ne_nil (l : List PngChunk) (h : l ≠ []) : truncAtIEND l ≠ [] := by
  cases l with
  | nil => exact absurd rfl h
  | cons c cl =>
    simp only [truncAtIEND]
    split <;> simp

theorem truncAtIEND_subset (l : List PngChunk) : ∀ c ∈ truncAtIEND l, c ∈ l := by
  induction l with
  | nil => simp [truncAtIEND]
  | cons y ys ih =>
    simp only [truncAtIEND]
    by_cases hI : y.type = IENDType
    · rw [if_pos hI]
      intro c hc
      rw [List.mem_singleton] at hc
      rw [hc]
      exact List.mem_cons_self y ys
    · rw [if_neg hI]
      intro c hc
      rcases List.mem_cons.mp hc with h1 | h2
      · rw [h1]
        exact List.mem_cons_self y ys
      · exact List.mem_cons_of_mem y (ih c h2)

theorem utf8EncodeChar_length_le (c : Char) : (utf8EncodeChar c).length ≤ 4 := by
  unfold utf8EncodeChar
  dsimp only
  split_ifs <;> simp

theorem utf8Bytes_length_le (s : String) : (utf8Bytes s).length ≤ 4 * s.length := by
  show (s.data.flatMap utf8EncodeChar).length ≤ 4 * s.data.length
  generalize s.data = l
  induction l with
  | nil => simp
  | cons c cs ih =>
    rw [List.flatMap_cons, List.length_append, List.length_cons]
    have := utf8EncodeChar_length_le c
    omega

theorem exifChunk_wf (p : String) (hplen : p.length ≤ 2000) :
    chunkWF ⟨eXIfType, buildExifTiff p⟩ := by
  refine ⟨rfl, ?_, ?_⟩
  · show ∀ b ∈ eXIfType, b < 128
    decide
  show (buildExifTiff p).length < 4294967296
  have h1 := buildExifTiff_length p
  have h2 := utf8Bytes_length_le p
  split at h1 <;> omega

theorem pngFinalChunks_wf (cs : List PngChunk) (p : String)
    (hwf : ∀ c ∈ cs, chunkWF c) (hplen : p.length ≤ 2000) :
    ∀ c ∈ pngFinalChunks cs p, chunkWF c := by
  intro c hc
  unfold pngFinalChunks at hc
  rw [insertIdx_take_drop _ _ _ (pngInsertIndex_le _)] at hc
  rcases List.mem_append.mp hc with h1 | h2
  · exact hwf c (List.mem_filter.mp (List.take_subset _ _ h1)).1
  · rcases List.mem_cons.mp h2 with h3 | h4
    · subst h3
      exact exifChunk_wf p hplen
    · exact hwf c (List.mem_filter.mp (List.drop_subset _ _ h4)).1

theorem injectPngExif_eq (bytes : Bytes) (p : String)
    (hsig : sliceBytes bytes 0 8 = PNG_SIGNATURE) (hne : extractPngChunks bytes ≠ []) :
    injectPngExif bytes p =
      PNG_SIGNATURE ++ pngChunksSerialize (pngFinalChunks (extractPngChunks bytes) p) := by
  have h8 := extractPngChunks_ne_nil_length bytes hne
  unfold injectPngExif
  rw [if_neg (by push_neg; exact ⟨by omega, hsig⟩)]
  dsimp only
  rw [if_neg hne]

theorem sig_append_drop8 (X : Bytes) : (PNG_SIGNATURE ++ X).drop 8 = X :=
  List.drop_left' rfl

theorem sig_append_slice (X : Bytes) : sliceBytes (PNG_SIGNATURE ++ X) 0 8 =
    PNG_SIGNATURE := by
  unfold sliceBytes
  rw [List.drop_zero, show (8 - 0 : Nat) = 8 from rfl,
    List.take_left' (show PNG_SIGNATURE.length = 8 from rfl)]

theorem extractPngChunks_sig_serialize (cl : List PngChunk) (hwf : ∀ c ∈ cl, chunkWF c) :
    extractPngChunks (PNG_SIGNATURE ++ pngChunksSerialize cl) = truncAtIEND cl := by
  rw [extractPngChunks_eq_rem, sig_append_drop8, extractChunksRem_serialize cl hwf]
  rfl

theorem getLast?_decomp (l : List PngChunk) (c : PngChunk) (h : l.getLast? = some c) :
    l.dropLast ++ [c] = l := by
  cases l with
  | nil => simp at h
  | cons x xs =>
    have h2 := List.getLast?_eq_getLast (x :: xs) (by simp)
    rw [h2] at h
    injection h with h3
    rw [← h3]
    exact List.dropLast_append_getLast _

theorem pngFinalChunks_count (cs : List PngChunk) (p : String) :
    (pngFinalChunks cs p).countP (fun c => c.type = eXIfType) = 1 := by
  unfold pngFinalChunks
  rw [insertIdx_take_drop _ _ _ (pngInsertIndex_le _), List.countP_append, List.countP_cons]
  have hz : ∀ (l : List PngChunk),
      (∀ c ∈ l, c ∈ cs.filter (fun c => c.type ≠ eXIfType)) →
      l.countP (fun c => c.type = eXIfType) = 0 := by
    intro l hl
    rw [List.countP_eq_zero]
    intro a ha
    have h := List.of_mem_filter (hl a ha)
    simp only [decide_eq_true_eq] at h
    simp [h]
  rw [hz _ (fun c hc => List.take_subset _ _ hc), hz _ (fun c hc => List.drop_subset _ _ hc)]
  simp

theorem pngFinalChunks_ne_nil (cs : List PngChunk) (p : String) :
    pngFinalChunks cs p ≠ [] := by
  unfold pngFinalChunks
  rw [insertIdx_take_drop _ _ _ (pngInsertIndex_le _)]
  simp

/-- C5: for every accepted PNG input — including inputs already containing
eXIf chunks — and non-empty normalized prompt, the serialized output of
`injectPngExif` contains exactly one `eXIf` chunk, and applying
`injectPngExif` again to the output still yields exactly one: existing `eXIf`
chunks are replaced, never duplicated. -/
theorem injectPngExif_single_exif (bytes : Bytes) (p : String)
    (hb : ∀ x ∈ bytes, x < 256) (hsig : sliceBytes bytes 0 8 = PNG_SIGNATURE)
    (hne : extractPngChunks bytes ≠ []) (_hp : p ≠ "") (hplen : p.length ≤ 2000) :
    (scanAllChunksRem ((injectPngExif bytes p).drop 8)).countP
      (fun c => c.type = eXIfType) = 1 ∧
    (scanAllChunksRem ((injectPngExif (injectPngExif bytes p) p).drop 8)).countP
      (fun c => c.type = eXIfType) = 1 := by
  have hwcs := extractPngChunks_wf bytes hb
  have heq := injectPngExif_eq bytes p hsig hne
  have hwf_final := pngFinalChunks_wf _ p hwcs hplen
  constructor
  · rw [heq, sig_append_drop8, scanAllChunksRem_serialize _ hwf_final, pngFinalChunks_count]
  · have hsig2 : sliceBytes (injectPngExif bytes p) 0 8 = PNG_SIGNATURE := by
      rw [heq]
      exact sig_append_slice _
    have hparse2 : extractPngChunks (injectPngExif bytes p) =
        truncAtIEND (pngFinalChunks (extractPngChunks bytes) p) := by
      rw [heq]
      exact extractPngChunks_sig_serialize _ hwf_final
    have hne2 : extractPngChunks (injectPngExif bytes p) ≠ [] := by
      rw [hparse2]
      exact truncAtIEND_ne_nil _ (pngFinalChunks_ne_nil _ _)
    have hwf2 : ∀ c ∈ extractPngChunks (injectPngExif bytes p), chunkWF c := by
      rw [hparse2]
      intro c hc
      exact hwf_final c (truncAtIEND_subset _ c hc)
    have heq2 := injectPngExif_eq (injectPngExif bytes p) p hsig2 hne2
    rw [heq2, sig_append_drop8,
      scanAllChunksRem_serialize _ (pngFinalChunks_wf _ p hwf2 hplen), pngFinalChunks_count]

/-- C10: for an accepted PNG whose parsed chunk list ends with `IEND`, input
bytes located after the IEND chunk are not present in the output: appending
any junk after the IEND chunk leaves `injectPngExif`'s output unchanged, and
the output consists solely of the signature followed by the re-serialized
chunk list. -/
theorem injectPngExif_trailing_dropped (bytes junk : Bytes) (p : String)
    (_hb : ∀ x ∈ bytes, x < 256) (hsig : sliceBytes bytes 0 8 = PNG_SIGNATURE)
    (hne : extractPngChunks bytes ≠ [])
    (hlast : ((extractPngChunks bytes).map PngChunk.type).getLast? = some IENDType)
    (_hp : p ≠ "") (_hplen : p.length ≤ 2000) :
    injectPngExif (bytes ++ junk) p = injectPngExif bytes p ∧
    injectPngExif bytes p =
      PNG_SIGNATURE ++ pngChunksSerialize (pngFinalChunks (extractPngChunks bytes) p) := by
  have h8 := extractPngChunks_ne_nil_length bytes hne
  have heq := injectPngExif_eq bytes p hsig hne
  have hstab : extractPngChunks (bytes ++ junk) = extractPngChunks bytes := by
    rw [extractPngChunks_eq_rem, extractPngChunks_eq_rem,
      List.drop_append_of_le_length h8]
    cases hp8 : extractChunksRem (bytes.drop 8) with
    | none =>
      rw [extractPngChunks_eq_rem, hp8] at hne
      simp at hne
    | some cl =>
      have hlast' : (cl.map PngChunk.type).getLast? = some IENDType := by
        rw [extractPngChunks_eq_rem, hp8] at hlast
        simpa using hlast
      rw [extractChunksRem_append_junk_fuel (bytes.drop 8).length (bytes.drop 8) le_rfl
        junk cl hp8 hlast']
  have hsig' : sliceBytes (bytes ++ junk) 0 8 = PNG_SIGNATURE := by
    rw [← hsig]
    exact sliceBytes_append_left bytes junk 0 8 (by omega) h8
  have hne' : extractPngChunks (bytes ++ junk) ≠ [] := by
    rw [hstab]
    exact hne
  have heq' := injectPngExif_eq (bytes ++ junk) p hsig' hne'
  refine ⟨?_, heq⟩
  rw [heq', hstab, heq]

theorem truncAtIEND_insert_concat (w : List PngChunk) (clast e : PngChunk) (idx : Nat)
    (hw : ∀ x ∈ w, x.type ≠ IENDType) (he : e.type ≠ IENDType)
    (hcl : clast.type = IENDType) (hidx : idx ≤ w.length + 1) :
    truncAtIEND ((w ++ [clast]).insertIdx idx e) =
      (w.take idx ++ e :: w.drop idx) ++ [clast] ∨
    truncAtIEND ((w ++ [clast]).insertIdx idx e) = w ++ [clast] := by
  have hlen2 : idx ≤ (w ++ [clast]).length := by simp; omega
  rw [insertIdx_take_drop _ _ _ hlen2]
  by_cases hc : idx ≤ w.length
  · left
    rw [List.take_append_of_le_length hc, List.drop_append_of_le_length hc,
      show w.take idx ++ e :: (w.drop idx ++ [clast]) =
        (w.take idx ++ e :: w.drop idx) ++ clast :: [] from by simp]
    refine truncAtIEND_append_iend _ clast [] ?_ hcl
    intro x hx
    rcases List.mem_append.mp hx with h1 | h2
    · exact hw x (List.take_subset _ _ h1)
    · rcases List.mem_cons.mp h2 with h3 | h4
      · rw [h3]
        exact he
      · exact hw x (List.drop_subset _ _ h4)
  · have hc2 : idx = w.length + 1 := by omega
    right
    rw [hc2, show w.length + 1 = (w ++ [clast]).length from by simp, List.take_length,
      List.drop_length,
      show (w ++ [clast]) ++ e :: [] = w ++ clast :: [e] from by simp]
    exact truncAtIEND_append_iend w clast [e] hw hcl

theorem pngInsertIndex_concat_le (w : List PngChunk) (c : PngChunk) :
    pngInsertIndex (w ++ [c]) ≤ w.length + 1 := by
  have h := pngInsertIndex_le (w ++ [c])
  simp only [List.length_append, List.length_cons, List.length_nil] at h
  omega

theorem exifChunk_type_ne_iend (p : String) :
    (⟨eXIfType, buildExifTiff p⟩ : PngChunk).type ≠ IENDType := by
  show eXIfType ≠ IENDType
  decide

/-- C2 (amended): for every byte buffer with a valid PNG signature whose
chunk table parses to a nonempty list ending in an `IEND` chunk, and every
non-empty normalized prompt, the output of `injectPngExif` starts with the
same 8-byte signature, its parsed chunk list still ends with an `IEND` chunk,
and every chunk scanned in the output stores a 4-byte CRC field equal to
`crc32(type ++ data)`.  (The original claim, over all accepted inputs, fails
for IEND-less inputs, see the counterexample.) -/
theorem injectPngExif_png_structure (bytes : Bytes) (p : String)
    (hb : ∀ x ∈ bytes, x < 256) (hsig : sliceBytes bytes 0 8 = PNG_SIGNATURE)
    (hne : extractPngChunks bytes ≠ [])
    (hlast : ((extractPngChunks bytes).map PngChunk.type).getLast? = some IENDType)
    (_hp : p ≠ "") (hplen : p.length ≤ 2000) :
    sliceBytes (injectPngExif bytes p) 0 8 = PNG_SIGNATURE ∧
    ((extractPngChunks (injectPngExif bytes p)).map PngChunk.type).getLast? =
      some IENDType ∧
    crcScanOk ((injectPngExif bytes p).drop 8) = true := by
  have hwcs := extractPngChunks_wf bytes hb
  have heq := injectPngExif_eq bytes p hsig hne
  have hwf_final := pngFinalChunks_wf _ p hwcs hplen
  refine ⟨by rw [heq]; exact sig_append_slice _, ?_,
    by rw [heq, sig_append_drop8]; exact crcScanOk_serialize _ hwf_final⟩
  rw [heq, extractPngChunks_sig_serialize _ hwf_final]
  obtain ⟨clast, hcl, hclI⟩ : ∃ c, (extractPngChunks bytes).getLast? = some c ∧
      c.type = IENDType := by
    rw [List.getLast?_map] at hlast
    cases hg : (extractPngChunks bytes).getLast? with
    | none =>
      rw [hg] at hlast
      simp at hlast
    | some c =>
      rw [hg] at hlast
      simp only [Option.map_some'] at hlast
      exact ⟨c, rfl, Option.some.inj hlast⟩
  have hdecomp := getLast?_decomp _ clast hcl
  have hufilter : (extractPngChunks bytes).filter (fun c => c.type ≠ eXIfType) =
      (extractPngChunks bytes).dropLast.filter (fun c => c.type ≠ eXIfType) ++
        [clast] := by
    conv_lhs => rw [← hdecomp]
    rw [List.filter_append]
    congr 1
    rw [List.filter_cons_of_pos (by rw [hclI]; decide)]
    rfl
  unfold pngFinalChunks
  rw [hufilter]
  have hNu : ∀ x ∈ (extractPngChunks bytes).dropLast.filter
      (fun c => c.type ≠ eXIfType), x.type ≠ IENDType :=
    fun x hx => extractPngChunks_dropLast bytes x (List.mem_of_mem_filter hx)
  have hfin : ∀ L : List PngChunk,
      ((L ++ [clast]).map PngChunk.type).getLast? = some IENDType := by
    intro L
    rw [List.map_append, show List.map PngChunk.type [clast] = [clast.type] from rfl,
      List.getLast?_concat, hclI]
  rcases truncAtIEND_insert_concat _ clast _ _ hNu (exifChunk_type_ne_iend p) hclI
    (pngInsertIndex_concat_le _ clast) with h1 | h2
  · rw [h1, hfin]
  · rw [h2, hfin]

theorem filter_exif_cons (p : String) (l : List PngChunk) :
    ((⟨eXIfType, buildExifTiff p⟩ : PngChunk) :: l).filter
      (fun c => c.type ≠ eXIfType) = l.filter (fun c => c.type ≠ eXIfType) := by
  rw [List.filter_cons]
  simp

/-- C4 (amended): for every PNG input whose chunk table parses successfully
and contains no `eXIf` chunk, and every non-empty normalized prompt, removing
the injected `eXIf` chunk from the output's parsed chunk list reproduces
exactly the ordered chunk list parsed from the input (same types, same data,
same order).  (The original claim, over all parsed inputs, fails when the
input already carries an `eXIf` chunk, see the counterexample.) -/
theorem injectPngExif_roundtrip (bytes : Bytes) (p : String)
    (hb : ∀ x ∈ bytes, x < 256) (hsig : sliceBytes bytes 0 8 = PNG_SIGNATURE)
    (hne : extractPngChunks bytes ≠ [])
    (hnoexif : ∀ c ∈ extractPngChunks bytes, c.type ≠ eXIfType)
    (_hp : p ≠ "") (hplen : p.length ≤ 2000) :
    (extractPngChunks (injectPngExif bytes p)).filter (fun c => c.type ≠ eXIfType) =
      extractPngChunks bytes := by
  have hwcs := extractPngChunks_wf bytes hb
  have heq := injectPngExif_eq bytes p hsig hne
  have hwf_final := pngFinalChunks_wf _ p hwcs hplen
  rw [heq, extractPngChunks_sig_serialize _ hwf_final]
  have hwe : (extractPngChunks bytes).filter (fun c => c.type ≠ eXIfType) =
      extractPngChunks bytes :=
    List.filter_eq_self.mpr (fun a ha => by simp [hnoexif a ha])
  have hfilter_sub : ∀ (l : List PngChunk), (∀ x ∈ l, x ∈ extractPngChunks bytes) →
      l.filter (fun c => c.type ≠ eXIfType) = l := by
    intro l hl
    exact List.filter_eq_self.mpr (fun a ha => by simp [hnoexif a (hl a ha)])
  unfold pngFinalChunks
  rw [hwe]
  cases hg : (extractPngChunks bytes).getLast? with
  | none =>
    rw [List.getLast?_eq_none_iff] at hg
    exact absurd hg hne
  | some clast =>
    have hdecomp := getLast?_decomp _ clast hg
    have hu_sub : ∀ x ∈ (extractPngChunks bytes).dropLast, x ∈ extractPngChunks bytes := by
      intro x hx
      rw [← hdecomp]
      exact List.mem_append_left _ hx
    have hcl_mem : clast ∈ extractPngChunks bytes := by
      rw [← hdecomp]
      exact List.mem_append_right _ (List.mem_singleton.mpr rfl)
    by_cases hclI : clast.type = IENDType
    · conv_lhs => rw [← hdecomp]
      rcases truncAtIEND_insert_concat _ clast ⟨eXIfType, buildExifTiff p⟩ _
        (fun x hx => extractPngChunks_dropLast bytes x hx)
        (exifChunk_type_ne_iend p) hclI (pngInsertIndex_concat_le _ clast) with h1 | h2
      · rw [h1, List.filter_append, List.filter_append,
          filter_exif_cons p,
          hfilter_sub _ (fun x hx => hu_sub x (List.take_subset _ _ hx)),
          hfilter_sub _ (fun x hx => hu_sub x (List.drop_subset _ _ hx)),
          hfilter_sub [clast] (by intro x hx; rw [List.mem_singleton.mp hx]; exact hcl_mem),
          List.take_append_drop, hdecomp]
      · rw [h2, List.filter_append,
          hfilter_sub _ hu_sub,
          hfilter_sub [clast] (by intro x hx; rw [List.mem_singleton.mp hx]; exact hcl_mem),
          hdecomp]
    · have hall : ∀ x ∈ extractPngChunks bytes, x.type ≠ IENDType := by
        intro x hx
        rw [← hdecomp] at hx
        rcases List.mem_append.mp hx with h1 | h2
        · exact extractPngChunks_dropLast bytes x h1
        · rw [List.mem_singleton.mp h2]
          exact hclI
      rw [insertIdx_take_drop _ _ _ (pngInsertIndex_le _),
        truncAtIEND_no_iend _ ?hni, List.filter_append,
        filter_exif_cons p,
        hfilter_sub _ (fun x hx => List.take_subset _ _ hx),
        hfilter_sub _ (fun x hx => List.drop_subset _ _ hx),
        List.take_append_drop]
      case hni =>
        intro x hx
        rcases List.mem_append.mp hx with h1 | h2
        · exact hall x (List.take_subset _ _ h1)
        · rcases List.mem_cons.mp h2 with h3 | h4
          · rw [h3]
            exact exifChunk_type_ne_iend p
          · exact hall x (List.drop_subset _ _ h4)

theorem witnessPng_parse :
    extractPngChunks (PNG_SIGNATURE ++ [0, 0, 0, 0, 0x49, 0x45, 0x4e, 0x44, 0, 0, 0, 0]) =
      [⟨IENDType, []⟩] := by
  simp [extractPngChunks, extractPngChunksAux, readUInt32BE, PNG_SIGNATURE, List.getD,
    sliceBytes, asciiMask, IENDType]

theorem injectPngExif_png_structure_witness :
    sliceBytes (injectPngExif
      (PNG_SIGNATURE ++ [0, 0, 0, 0, 0x49, 0x45, 0x4e, 0x44, 0, 0, 0, 0]) "a") 0 8 =
      PNG_SIGNATURE :=
  (injectPngExif_png_structure _ "a" (by decide) (by decide)
    (by rw [witnessPng_parse]; decide)
    (by rw [witnessPng_parse]; decide) (by decide) (by decide)).1

theorem injectPngExif_roundtrip_witness :
    (extractPngChunks (injectPngExif
      (PNG_SIGNATURE ++ [0, 0, 0, 0, 0x49, 0x45, 0x4e, 0x44, 0, 0, 0, 0]) "a")).filter
      (fun c => c.type ≠ eXIfType) =
    extractPngChunks (PNG_SIGNATURE ++ [0, 0, 0, 0, 0x49, 0x45, 0x4e, 0x44, 0, 0, 0, 0]) :=
  injectPngExif_roundtrip _ "a" (by decide) (by decide)
    (by rw [witnessPng_parse]; decide)
    (by rw [witnessPng_parse]; decide) (by decide) (by decide)

theorem injectPngExif_single_exif_witness :
    (scanAllChunksRem ((injectPngExif
      (PNG_SIGNATURE ++ [0, 0, 0, 0, 0x49, 0x45, 0x4e, 0x44, 0, 0, 0, 0]) "a").drop
        8)).countP (fun c => c.type = eXIfType) = 1 :=
  (injectPngExif_single_exif _ "a" (by decide) (by decide)
    (by rw [witnessPng_parse]; decide) (by decide) (by decide)).1

theorem injectPngExif_trailing_dropped_witness :
    injectPngExif
      ((PNG_SIGNATURE ++ [0, 0, 0, 0, 0x49, 0x45, 0x4e, 0x44, 0, 0, 0, 0]) ++ [1, 2, 3])
      "a" =
    injectPngExif (PNG_SIGNATURE ++ [0, 0, 0, 0, 0x49, 0x45, 0x4e, 0x44, 0, 0, 0, 0]) "a" :=
  (injectPngExif_trailing_dropped _ [1, 2, 3] "a" (by decide) (by decide)
    (by rw [witnessPng_parse]; decide)
    (by rw [witnessPng_parse]; decide) (by decide) (by decide)).1

theorem cexPng_parse_ihdr :
    extractPngChunks (PNG_SIGNATURE ++ [0, 0, 0, 0, 0x49, 0x48, 0x44, 0x52, 0, 0, 0, 0]) =
      [⟨[0x49, 0x48, 0x44, 0x52], []⟩] := by
  simp [extractPngChunks, extractPngChunksAux, readUInt32BE, PNG_SIGNATURE, List.getD,
    sliceBytes, asciiMask, IENDType]

/-- C2 counterexample: an accepted PNG with no IEND chunk — the output's
chunk list does not end in IEND. -/
theorem injectPngExif_iend_cex :
    sliceBytes (PNG_SIGNATURE ++ [0, 0, 0, 0, 0x49, 0x48, 0x44, 0x52, 0, 0, 0, 0]) 0 8 =
      PNG_SIGNATURE ∧
    extractPngChunks (PNG_SIGNATURE ++ [0, 0, 0, 0, 0x49, 0x48, 0x44, 0x52, 0, 0, 0, 0]) ≠
      [] ∧
    normalizePrompt "a" = "a" ∧
    ((extractPngChunks (injectPngExif
      (PNG_SIGNATURE ++ [0, 0, 0, 0, 0x49, 0x48, 0x44, 0x52, 0, 0, 0, 0]) "a")).map
        PngChunk.type).getLast? ≠ some IENDType := by
  refine ⟨by decide, by rw [cexPng_parse_ihdr]; decide, by decide, ?_⟩
  have hwf : ∀ c ∈ pngFinalChunks [⟨[0x49, 0x48, 0x44, 0x52], []⟩] "a", chunkWF c :=
    pngFinalChunks_wf [⟨[0x49, 0x48, 0x44, 0x52], []⟩] "a"
      (by intro c hc; rw [List.mem_singleton.mp hc]
          exact ⟨by decide, by decide, by decide⟩)
      (by decide)
  rw [injectPngExif_eq _ _ (by decide) (by rw [cexPng_parse_ihdr]; decide),
    cexPng_parse_ihdr, extractPngChunks_sig_serialize _ hwf]
  decide

theorem cexPng_parse_exif :
    extractPngChunks (PNG_SIGNATURE ++ [0, 0, 0, 0, 0x65, 0x58, 0x49, 0x66, 0, 0, 0, 0]) =
      [⟨[0x65, 0x58, 0x49, 0x66], []⟩] := by
  simp [extractPngChunks, extractPngChunksAux, readUInt32BE, PNG_SIGNATURE, List.getD,
    sliceBytes, asciiMask, IENDType]

/-- C4 counterexample: a PNG that already carries an eXIf chunk — removing
the injected eXIf chunk from the output does not reproduce the input's
chunk list, because the pre-existing eXIf chunk was discarded. -/
theorem injectPngExif_roundtrip_cex :
    sliceBytes (PNG_SIGNATURE ++ [0, 0, 0, 0, 0x65, 0x58, 0x49, 0x66, 0, 0, 0, 0]) 0 8 =
      PNG_SIGNATURE ∧
    extractPngChunks (PNG_SIGNATURE ++ [0, 0, 0, 0, 0x65, 0x58, 0x49, 0x66, 0, 0, 0, 0]) ≠
      [] ∧
    normalizePrompt "a" = "a" ∧
    (extractPngChunks (injectPngExif
      (PNG_SIGNATURE ++ [0, 0, 0, 0, 0x65, 0x58, 0x49, 0x66, 0, 0, 0, 0]) "a")).filter
      (fun c => c.type ≠ eXIfType) ≠
    extractPngChunks (PNG_SIGNATURE ++ [0, 0, 0, 0, 0x65, 0x58, 0x49, 0x66, 0, 0, 0, 0]) := by
  refine ⟨by decide, by rw [cexPng_parse_exif]; decide, by decide, ?_⟩
  have hwf : ∀ c ∈ pngFinalChunks [⟨[0x65, 0x58, 0x49, 0x66], []⟩] "a", chunkWF c :=
    pngFinalChunks_wf [⟨[0x65, 0x58, 0x49, 0x66], []⟩] "a"
      (by intro c hc; rw [List.mem_singleton.mp hc]
          exact ⟨by decide, by decide, by decide⟩)
      (by decide)
  rw [injectPngExif_eq _ _ (by decide) (by rw [cexPng_parse_exif]; decide),
    cexPng_parse_exif, extractPngChunks_sig_serialize _ hwf]
  decide
